import Mathlib

set_option maxRecDepth 8000

/-!
Verification development for the Daktela extractor component
(`src/data_transformer.py`, `src/daktela_client.py`, `src/component.py`,
`src/table_config.py`).

Python data is modelled by the `Value` type below; a Python `dict` is an
ordered association list (`Row`) whose keys are unique (Python dicts cannot
hold a key twice).  Dict mutation `d[k] = v` is `pySet` (update in place,
keeping the key's position, else append), and `{k0: v0, **row}` is
`pyExtend [(k0, v0)] row`.  Where the source builds a fresh dict by writing
each key of an existing dict exactly once (`_clean_html`,
`_prefix_key_columns`), the model maps over the entries, which agrees with
the source on every dict with unique keys.
-/

/-- JSON-like Python values as they appear in API records. -/
inductive Value where
  | vNull
  | vBool (b : Bool)
  | vInt (n : Int)
  | vStr (s : String)
  | vList (xs : List Value)
  | vDict (fields : List (String × Value))

/-- Python truthiness (`bool(v)`): `None`, `False`, `0`, `""`, `[]`, `{}` are falsy. -/
def pyTruthy : Value → Bool
  | .vNull => false
  | .vBool b => b
  | .vInt n => n != 0
  | .vStr s => s != ""
  | .vList xs => !xs.isEmpty
  | .vDict fs => !fs.isEmpty

/-- Decimal digits of a natural number, most significant first (fuel-driven so
that it is structurally recursive; `natStr` supplies enough fuel). -/
def natStrGo : Nat → Nat → List Char
  | 0, _ => []
  | fuel+1, n => if n < 10 then [Nat.digitChar n] else natStrGo fuel (n / 10) ++ [Nat.digitChar (n % 10)]

/-- Decimal rendering of a natural number, as Python `str` renders it. -/
def natStr (n : Nat) : String := String.mk (natStrGo (n+1) n)

mutual
/-- Python `repr` of a value.  For container values the source never relies on
the exact text; strings are rendered with single quotes as CPython does for
strings without quotes or escapes. -/
def pyRepr : Value → String
  | .vNull => "None"
  | .vBool true => "True"
  | .vBool false => "False"
  | .vInt n => if n < 0 then "-" ++ natStr n.natAbs else natStr n.natAbs
  | .vStr s => "'" ++ s ++ "'"
  | .vList xs => "[" ++ pyReprList xs ++ "]"
  | .vDict fs => "\x7b" ++ pyReprFields fs ++ "\x7d"

/-- Comma-separated reprs of a list's elements. -/
def pyReprList : List Value → String
  | [] => ""
  | [x] => pyRepr x
  | x :: y :: xs => pyRepr x ++ ", " ++ pyReprList (y :: xs)

/-- Comma-separated reprs of a dict's entries. -/
def pyReprFields : List (String × Value) → String
  | [] => ""
  | [(k, v)] => "'" ++ k ++ "': " ++ pyRepr v
  | (k, v) :: y :: xs => "'" ++ k ++ "': " ++ pyRepr v ++ ", " ++ pyReprFields (y :: xs)
end

/-- Python `str(v)`: the string itself for strings, `repr`-like otherwise. -/
def pyStr : Value → String
  | .vStr s => s
  | v => pyRepr v

/-- A Python dict: ordered association list with unique keys. -/
abbrev Row := List (String × Value)

/-- Lookup of a key (`row[c]` / `c in row`), first occurrence. -/
def pyGet : Row → String → Option Value
  | [], _ => none
  | (k, v) :: rest, c => if k = c then some v else pyGet rest c

/-- Python `row.get(c, d)`. -/
def pyGetD (row : Row) (c : String) (d : Value) : Value := (pyGet row c).getD d

/-- Python `c in row`. -/
def rowHasKey (row : Row) (c : String) : Bool := (pyGet row c).isSome

/-- Python `row[c] = v`: update in place if the key exists (keeping its
position), otherwise append at the end. -/
def pySet (row : Row) (c : String) (v : Value) : Row :=
  if (pyGet row c).isSome then
    row.map (fun kv => if kv.1 = c then (kv.1, v) else kv)
  else
    row ++ [(c, v)]

/-- Python `dict(acc); for k, v in row.items(): acc[k] = v` — the semantics of
`{**acc, **row}` and of `acc.update(row)`. -/
def pyExtend (acc : Row) (row : Row) : Row :=
  row.foldl (fun a kv => pySet a kv.1 kv.2) acc

/-- The ordered key list of a dict. -/
def rowKeys (row : Row) : List String := row.map Prod.fst

/-- Lookup of the last occurrence of a key (the value Python keeps after
repeated assignment). -/
def pyGetLast (row : Row) (c : String) : Option Value := pyGet row.reverse c

/-! ### MD5 (RFC 1321), over natural numbers reduced mod 2^32

`hashlib.md5(combined.encode()).hexdigest()` from
`DataTransformer._generate_compound_id` is modelled bit-faithfully: UTF-8
encoding of the string, MD5 padding, 64 rounds per 512-bit chunk, and
lowercase hex output of the 16-byte digest.  Machine words are `Nat`
reduced mod `2^32`; the bitwise connectives recurse over a 32-bit width so
that every definition is structurally recursive and kernel-evaluable. -/

/-- Reduce mod 2^32. -/
def w32 (n : Nat) : Nat := n % 4294967296

/-- Bitwise AND over `w` bits. -/
def natAnd : Nat → Nat → Nat → Nat
  | 0, _, _ => 0
  | w+1, x, y => (if x % 2 = 1 ∧ y % 2 = 1 then 1 else 0) + 2 * natAnd w (x / 2) (y / 2)

/-- Bitwise OR over `w` bits. -/
def natOr : Nat → Nat → Nat → Nat
  | 0, _, _ => 0
  | w+1, x, y => (if x % 2 = 1 ∨ y % 2 = 1 then 1 else 0) + 2 * natOr w (x / 2) (y / 2)

/-- Bitwise XOR over `w` bits. -/
def natXor : Nat → Nat → Nat → Nat
  | 0, _, _ => 0
  | w+1, x, y => (if (x % 2 = 1) ≠ (y % 2 = 1) then 1 else 0) + 2 * natXor w (x / 2) (y / 2)

/-- Bitwise NOT over `w` bits (complement against the all-ones mask). -/
def natNot (w x : Nat) : Nat := 2 ^ w - 1 - x

/-- Left rotation of a 32-bit word by `s` bits. -/
def rotl32 (x s : Nat) : Nat := x % 2 ^ (32 - s) * 2 ^ s + x / 2 ^ (32 - s)

/-- Round function F (rounds 0-15). -/
def md5F (b c d : Nat) : Nat := natOr 32 (natAnd 32 b c) (natAnd 32 (natNot 32 b) d)

/-- Round function G (rounds 16-31). -/
def md5G (b c d : Nat) : Nat := natOr 32 (natAnd 32 b d) (natAnd 32 c (natNot 32 d))

/-- Round function H (rounds 32-47). -/
def md5H (b c d : Nat) : Nat := natXor 32 (natXor 32 b c) d

/-- Round function I (rounds 48-63). -/
def md5I (b c d : Nat) : Nat := natXor 32 c (natOr 32 b (natNot 32 d))

/-- The sine-derived constant table of RFC 1321. -/
def md5K : List Nat :=
  [0xd76aa478, 0xe8c7b756, 0x242070db, 0xc1bdceee,
   0xf57c0faf, 0x4787c62a, 0xa8304613, 0xfd469501,
   0x698098d8, 0x8b44f7af, 0xffff5bb1, 0x895cd7be,
   0x6b901122, 0xfd987193, 0xa679438e, 0x49b40821,
   0xf61e2562, 0xc040b340, 0x265e5a51, 0xe9b6c7aa,
   0xd62f105d, 0x02441453, 0xd8a1e681, 0xe7d3fbc8,
   0x21e1cde6, 0xc33707d6, 0xf4d50d87, 0x455a14ed,
   0xa9e3e905, 0xfcefa3f8, 0x676f02d9, 0x8d2a4c8a,
   0xfffa3942, 0x8771f681, 0x6d9d6122, 0xfde5380c,
   0xa4beea44, 0x4bdecfa9, 0xf6bb4b60, 0xbebfbc70,
   0x289b7ec6, 0xeaa127fa, 0xd4ef3085, 0x04881d05,
   0xd9d4d039, 0xe6db99e5, 0x1fa27cf8, 0xc4ac5665,
   0xf4292244, 0x432aff97, 0xab9423a7, 0xfc93a039,
   0x655b59c3, 0x8f0ccc92, 0xffeff47d, 0x85845dd1,
   0x6fa87e4f, 0xfe2ce6e0, 0xa3014314, 0x4e0811a1,
   0xf7537e82, 0xbd3af235, 0x2ad7d2bb, 0xeb86d391]

/-- The per-round left-rotation amounts. -/
def md5S : List Nat :=
  [7, 12, 17, 22, 7, 12, 17, 22, 7, 12, 17, 22, 7, 12, 17, 22,
   5, 9, 14, 20, 5, 9, 14, 20, 5, 9, 14, 20, 5, 9, 14, 20,
   4, 11, 16, 23, 4, 11, 16, 23, 4, 11, 16, 23, 4, 11, 16, 23,
   6, 10, 15, 21, 6, 10, 15, 21, 6, 10, 15, 21, 6, 10, 15, 21]

/-- Message-word index used by round `i`. -/
def md5Index (i : Nat) : Nat :=
  if i < 16 then i
  else if i < 32 then (5 * i + 1) % 16
  else if i < 48 then (3 * i + 5) % 16
  else 7 * i % 16

/-- Nonlinear mix used by round `i`. -/
def md5Mix (i b c d : Nat) : Nat :=
  if i < 16 then md5F b c d
  else if i < 32 then md5G b c d
  else if i < 48 then md5H b c d
  else md5I b c d

/-- One MD5 round on the state `(a, b, c, d)`. -/
def md5Round (M : Nat → Nat) (st : Nat × Nat × Nat × Nat) (i : Nat) : Nat × Nat × Nat × Nat :=
  let f := w32 (st.1 + md5Mix i st.2.1 st.2.2.1 st.2.2.2 + md5K.getD i 0 + M (md5Index i))
  (st.2.2.2, w32 (st.2.1 + rotl32 f (md5S.getD i 0)), st.2.1, st.2.2.1)

/-- Little-endian 32-bit word `j` of a 64-byte chunk. -/
def md5Word (chunk : List Nat) (j : Nat) : Nat :=
  chunk.getD (4*j) 0 + 256 * chunk.getD (4*j+1) 0 +
    65536 * chunk.getD (4*j+2) 0 + 16777216 * chunk.getD (4*j+3) 0

/-- Process one 64-byte chunk. -/
def md5Chunk (h : Nat × Nat × Nat × Nat) (chunk : List Nat) : Nat × Nat × Nat × Nat :=
  let st := (List.range 64).foldl (md5Round (md5Word chunk)) h
  (w32 (h.1 + st.1), w32 (h.2.1 + st.2.1), w32 (h.2.2.1 + st.2.2.1), w32 (h.2.2.2 + st.2.2.2))

/-- The 8-byte little-endian bit length appended by MD5 padding. -/
def md5LenBytes (len : Nat) : List Nat :=
  (List.range 8).map (fun i => 8 * len / 256 ^ i % 256)

/-- MD5 padding: `0x80`, zeros to 56 mod 64, then the bit length. -/
def md5Pad (msg : List Nat) : List Nat :=
  msg ++ 128 :: List.replicate ((119 - msg.length % 64) % 64) 0 ++ md5LenBytes msg.length

/-- Split a byte list into 64-byte chunks (fuel-driven; `md5Bytes` supplies
the list length as fuel, which suffices). -/
def md5Chunks : Nat → List Nat → List (List Nat)
  | 0, _ => []
  | _+1, [] => []
  | fuel+1, b :: bs => (b :: bs).take 64 :: md5Chunks fuel ((b :: bs).drop 64)

/-- The MD5 initial state. -/
def md5Init : Nat × Nat × Nat × Nat := (0x67452301, 0xefcdab89, 0x98badcfe, 0x10325476)

/-- Little-endian bytes of a 32-bit word. -/
def wordLEBytes (x : Nat) : List Nat := [x % 256, x / 256 % 256, x / 65536 % 256, x / 16777216 % 256]

/-- The 16-byte MD5 digest of a byte message. -/
def md5Bytes (msg : List Nat) : List Nat :=
  let padded := md5Pad msg
  let st := (md5Chunks padded.length padded).foldl md5Chunk md5Init
  wordLEBytes st.1 ++ wordLEBytes st.2.1 ++ wordLEBytes st.2.2.1 ++ wordLEBytes st.2.2.2

/-- Lowercase hex digit. -/
def hexDigitChar (n : Nat) : Char :=
  "0123456789abcdef".data.getD n '0'

/-- Lowercase hex rendering of a byte list. -/
def hexChars : List Nat → List Char
  | [] => []
  | b :: bs => hexDigitChar (b / 16) :: hexDigitChar (b % 16) :: hexChars bs

/-- UTF-8 encoding of one code point. -/
def utf8Bytes (c : Nat) : List Nat :=
  if c < 128 then [c]
  else if c < 2048 then [192 + c / 64, 128 + c % 64]
  else if c < 65536 then [224 + c / 4096, 128 + c / 64 % 64, 128 + c % 64]
  else [240 + c / 262144, 128 + c / 4096 % 64, 128 + c / 64 % 64, 128 + c % 64]

/-- UTF-8 bytes of a string (Python `s.encode()`). -/
def strBytes (s : String) : List Nat := (s.data.map (fun ch => utf8Bytes ch.toNat)).flatten

/-- `hashlib.md5(s.encode()).hexdigest()`. -/
def md5Hex (s : String) : String := String.mk (hexChars (md5Bytes (strBytes s)))

/-! ### Table schema (`table_config.py`) -/

/-- The fields of `TableConfig` that the transformation pipeline reads.
`no_ns_columns` models the source's field that exempts key columns from
tenant namespacing. -/
structure TableConfig where
  columns : List String
  primary_keys : List String
  secondary_keys : List String
  keys : List String
  list_columns : List String
  list_of_dicts_columns : List String
  no_ns_columns : List String

/-- Python `key.replace(".", "_")`, characterwise. -/
def normKeyChars : List Char → List Char
  | [] => []
  | c :: cs => (if c = '.' then '_' else c) :: normKeyChars cs

/-- Python `key.replace(".", "_")`. -/
def normKey (s : String) : String := String.mk (normKeyChars s.data)

/-! ### DataTransformer (`data_transformer.py`) -/

/-- `DataTransformer._normalize_nested_json`: flatten one level of nesting,
replacing dots by underscores in keys. -/
def normalize_nested_json (row : Row) : Row :=
  row.foldl (fun result kv =>
    let nk := normKey kv.1
    match kv.2 with
    | .vDict fields =>
        fields.foldl (fun res fkv => pySet res (normKey (nk ++ "_" ++ fkv.1)) fkv.2) result
    | v => pySet result nk v) []

/-- `DataTransformer._filter_columns`: keep only configured columns when an
allow-list is configured. -/
def filter_columns (cfg : TableConfig) (row : Row) : Row :=
  if cfg.columns.isEmpty then row
  else
    let normalized := cfg.columns.map normKey
    row.filter (fun kv => normalized.contains kv.1)

/-- `DataTransformer._handle_list_columns_recursive`. -/
def handle_list_columns_recursive : List String → Row → List Row
  | [] => fun row => [row]
  | c :: rest => fun row =>
    match pyGetD row c (.vList []) with
    | .vList (v :: vs) =>
        (v :: vs).flatMap (fun value =>
          let newRow := pySet row c value
          if rest.isEmpty then [newRow] else handle_list_columns_recursive rest newRow)
    | _ => [row]

/-- `DataTransformer._handle_list_columns`: explode list columns, one output
row per element. -/
def handle_list_columns (cfg : TableConfig) (row : Row) : List Row :=
  let colsToExplode := (cfg.list_columns.map normKey).filter (fun c => rowHasKey row c)
  match colsToExplode with
  | [] => [row]
  | explodeCol :: restCols =>
    match pyGetD row explodeCol (.vList []) with
    | .vList (v :: vs) =>
        (v :: vs).flatMap (fun value =>
          let newRow := pySet row explodeCol value
          if restCols.isEmpty then [newRow]
          else handle_list_columns_recursive
            ((explodeCol :: restCols).filter (fun c => c != explodeCol)) newRow)
    | _ => [row]

/-- Flatten one element of a list-of-dicts column into a row, as the body of
the loops in `_handle_list_of_dicts_columns` does. -/
def expandDictItem (c : String) (row : Row) (item : Value) : Row :=
  let newRow := row.filter (fun kv => kv.1 != c)
  match item with
  | .vDict fs => fs.foldl (fun r fkv => pySet r (c ++ "_" ++ fkv.1) fkv.2) newRow
  | _ => newRow

/-- `DataTransformer._handle_list_of_dicts_columns_recursive`. -/
def handle_list_of_dicts_columns_recursive : List String → Row → List Row
  | [] => fun row => [row]
  | c :: rest => fun row =>
    match pyGetD row c (.vList []) with
    | .vList (v :: vs) =>
        (v :: vs).flatMap (fun item =>
          let newRow := expandDictItem c row item
          if rest.isEmpty then [newRow] else handle_list_of_dicts_columns_recursive rest newRow)
    | _ => [row.filter (fun kv => kv.1 != c)]

/-- `DataTransformer._handle_list_of_dicts_columns`. -/
def handle_list_of_dicts_columns (cfg : TableConfig) (row : Row) : List Row :=
  let colsToExpand := (cfg.list_of_dicts_columns.map normKey).filter (fun c => rowHasKey row c)
  match colsToExpand with
  | [] => [row]
  | expandCol :: restCols =>
    match pyGetD row expandCol (.vList []) with
    | .vList (v :: vs) =>
        (v :: vs).flatMap (fun item =>
          let newRow := expandDictItem expandCol row item
          if restCols.isEmpty then [newRow]
          else handle_list_of_dicts_columns_recursive
            ((expandCol :: restCols).filter (fun c => c != expandCol)) newRow)
    | _ => [row.filter (fun kv => kv.1 != expandCol)]

/-- Scan for the closing `>` of the non-greedy regex `<.*?>`: the first `>`
reachable without crossing a newline (`.` does not match a newline). -/
def findTagEnd : List Char → Option (List Char)
  | [] => none
  | c :: cs => if c = '>' then some cs else if c = '\n' then none else findTagEnd cs

/-- Fuel-driven worker for `re.sub(r"<.*?>", "", s)`: at each `<` remove the
shortest newline-free match, otherwise copy the character. -/
def stripTagsGo : Nat → List Char → List Char
  | 0, l => l
  | _+1, [] => []
  | fuel+1, c :: cs =>
    if c = '<' then
      match findTagEnd cs with
      | some rest => stripTagsGo fuel rest
      | none => c :: stripTagsGo fuel cs
    else c :: stripTagsGo fuel cs

/-- `self.html_pattern.sub("", value)` for the pattern `<.*?>`. -/
def stripTags (l : List Char) : List Char := stripTagsGo l.length l

/-- The characters Python `str.strip()` removes. -/
def isPySpace (c : Char) : Bool :=
  c = ' ' || c = '\t' || c = '\n' || c = '\r' || c = '\x0b' || c = '\x0c'

/-- Python `str.strip()` on a character list. -/
def pyStripChars (l : List Char) : List Char :=
  ((l.dropWhile isPySpace).reverse.dropWhile isPySpace).reverse

/-- `DataTransformer._clean_html_value`: strip tags from strings, strip
whitespace, and turn an empty result into `None`; non-strings pass through. -/
def clean_html_value (v : Value) : Value :=
  match v with
  | .vStr s =>
    let cleaned := String.mk (pyStripChars (stripTags s.data))
    if cleaned = "" then .vNull else .vStr cleaned
  | v => v

/-- `DataTransformer._clean_html`: clean every value of the row. -/
def clean_html (row : Row) : Row :=
  row.map (fun kv => (kv.1, clean_html_value kv.2))

/-- `DataTransformer._add_server_column`: `{"server": self.server_name, **row}`. -/
def add_server_column (server : String) (row : Row) : Row :=
  pyExtend [("server", Value.vStr server)] row

/-- Whether `_prefix_key_columns` rewrites the column `key`: the first
configured key column whose normalized name matches decides, and a match is
exempt when listed in the no-namespacing columns. -/
def shouldNsCol (cfg : TableConfig) (key : String) : Bool :=
  match (cfg.primary_keys ++ cfg.secondary_keys ++ cfg.keys).find? (fun kc => normKey kc = key) with
  | some _ => !(cfg.no_ns_columns.contains key)
  | none => false

/-- Python `value is None or value == ""` (only the empty string compares
equal to `""`). -/
def isNoneOrEmptyStr : Value → Bool
  | .vNull => true
  | .vStr s => s == ""
  | _ => false

/-- The per-value rewrite of `_prefix_key_columns`:
`f"{self.server_name}_{value}"` on matching, non-`None`, non-empty values. -/
def nsValue (server : String) (cfg : TableConfig) (key : String) (v : Value) : Value :=
  if shouldNsCol cfg key && !isNoneOrEmptyStr v then .vStr (server ++ "_" ++ pyStr v) else v

/-- `DataTransformer._prefix_key_columns`: rewrite every key-classified
column's value to its tenant-namespaced form. -/
def ns_key_columns (server : String) (cfg : TableConfig) (row : Row) : Row :=
  row.map (fun kv => (kv.1, nsValue server cfg kv.1 kv.2))

/-- The normalized primary-then-secondary key column list of
`_generate_compound_id`. -/
def gcKeyCols (cfg : TableConfig) : List String :=
  cfg.primary_keys.map normKey ++ cfg.secondary_keys.map normKey

/-- `existing_key_cols = [col for col in all_key_cols if col in row]`. -/
def existingKeyCols (cfg : TableConfig) (row : Row) : List String :=
  (gcKeyCols cfg).filter (fun c => rowHasKey row c)

/-- `str(row[col]) if row[col] is not None else ""`. -/
def strForId : Option Value → String
  | some .vNull => ""
  | some v => pyStr v
  | none => ""

/-- The hashed value list of `_generate_compound_id`. -/
def gcValues (cfg : TableConfig) (row : Row) : List String :=
  (existingKeyCols cfg row).map (fun c => strForId (pyGet row c))

/-- Python `"".join(values)`. -/
def strJoin : List String → String
  | [] => ""
  | s :: ss => s ++ strJoin ss

/-- `DataTransformer._generate_compound_id`: hash the key values into `id`,
or emit an empty `id` when no key column is present. -/
def generate_compound_id (cfg : TableConfig) (row : Row) : Row :=
  match existingKeyCols cfg row with
  | [] => pyExtend [("id", Value.vStr "")] row
  | _ :: _ =>
    let idHash := md5Hex (strJoin (gcValues cfg row))
    pyExtend [("server", pyGetD row "server" (Value.vStr "")), ("id", Value.vStr idHash)]
      (row.filter (fun kv => kv.1 != "server" && kv.1 != "id"))

/-- The per-row tail of the pipeline: steps 5-8 of `DataTransformer.transform`
(HTML cleaning, server column, tenant namespacing, compound id). -/
def finalizeRow (server : String) (cfg : TableConfig) (row : Row) : Row :=
  generate_compound_id cfg (ns_key_columns server cfg (add_server_column server (clean_html row)))

/-- `DataTransformer.transform`: the whole per-record pipeline over a record
list, in the source's stage order. -/
def transform (server : String) (cfg : TableConfig) (data : List Row) : List Row :=
  data.flatMap (fun row =>
    (handle_list_columns cfg (filter_columns cfg (normalize_nested_json row))).flatMap
      (fun expanded =>
        (handle_list_of_dicts_columns cfg expanded).map (finalizeRow server cfg)))

/-! ### DaktelaClient (`daktela_client.py`) -/

/-- Python `range(0, stop, step)` for `step > 0`. -/
def pyRange (stop step : Nat) : List Nat :=
  (List.range ((stop + step - 1) / step)).map (fun i => i * step)

/-- The skip offsets requested by `DaktelaClient.extract_table`:
`range(0, max(total, 1), limit)`. -/
def extract_table_offsets (total limit : Nat) : List Nat :=
  pyRange (max total 1) limit

/-- `DaktelaClient.extract_table`: page through the table and concatenate the
fetched pages; `fetch i` is the record list returned for `skip = i`. -/
def extract_table (fetch : Nat → List Row) (total limit : Nat) : List Row :=
  (extract_table_offsets total limit).foldl (fun allData i => allData ++ fetch i) []

/-- A parsed login response: HTTP status and JSON body. -/
structure LoginResponse where
  status_code : Nat
  body : Value

/-- `data.get("result")` on the parsed body (absent or non-dict bodies give
`None`; on a non-dict body CPython raises instead, which `authenticate` also
turns into an error). -/
def responseResult (body : Value) : Value :=
  match body with
  | .vDict fs => pyGetD fs "result" .vNull
  | _ => .vNull

/-- Token extraction of `authenticate`: `result.get("accessToken")` for dict
results, the result itself otherwise. -/
def tokenOfResult (result : Value) : Value :=
  match result with
  | .vDict fs => pyGetD fs "accessToken" .vNull
  | v => v

/-- `DaktelaClient.authenticate`, as a function of the login response: `ok`
with the stored token, or `error` with the fatal `UserException` message. -/
def authenticate (resp : LoginResponse) : Except String String :=
  if resp.status_code ≠ 200 then
    .error ("Invalid response from Daktela server. Status code: " ++ natStr resp.status_code ++
      ". Make sure your credentials are correct.")
  else
    let result := responseResult resp.body
    if !pyTruthy result then .error "Token received was invalid or empty!"
    else
      match tokenOfResult result with
      | .vStr s => if s = "" then .error "Token received was invalid or empty!" else .ok s
      | _ => .error "Token received was invalid or empty!"

/-- `DaktelaClient.MAX_RETRIES`. -/
def MAX_RETRIES : Nat := 8

/-- Modelled from the spec: the retry loop lives in the external
`keboola.http_client` `AsyncHttpClient`, which is not part of this
repository's sources; `DaktelaClient.__aenter__` configures it with
`retries=MAX_RETRIES` and `backoff_factor=1`.  Per the spec, a failed
attempt `i` (0-based) is followed by a wait of `i + 1` seconds when another
attempt remains, and at most the configured number of attempts is made.
Returns (number of attempts made, waits between consecutive attempts,
success flag); `succeeds i` tells whether attempt `i` succeeds. -/
def retryGo (succeeds : Nat → Bool) : Nat → Nat → Nat × List Nat × Bool
  | _, 0 => (0, [], false)
  | i, fuel+1 =>
    if succeeds i then (1, [], true)
    else if fuel = 0 then (1, [], false)
    else
      let r := retryGo succeeds (i+1) fuel
      (r.1 + 1, (i+1) :: r.2.1, r.2.2)

/-- Modelled from the spec: a full retried request, starting at attempt 0
with the configured attempt ceiling. -/
def retryRun (succeeds : Nat → Bool) : Nat × List Nat × Bool :=
  retryGo succeeds 0 MAX_RETRIES

/-- A raised exception: its class name and its payload (message/args). -/
structure PyError where
  typeName : String
  payload : String

/-- The fatal message built by `DaktelaClient._request_with_retry`:
`f"Request to {url} failed: {type(e).__name__}"` — only the exception's
class name is used, never its payload. -/
def requestFailMessage (url : String) (e : PyError) : String :=
  "Request to " ++ url ++ " failed: " ++ e.typeName

/-! ### Orchestrator tracking (`component.py`) -/

/-- The per-column identifier tracking of `Component._write_output_stream`:
every non-empty value of column `col`, stringified (`str(value)` for values
passing `if value and value != ""`). -/
def trackedParentIds (rows : List Row) (col : String) : List String :=
  rows.filterMap (fun r =>
    match pyGet r col with
    | some v => if pyTruthy v then some (pyStr v) else none
    | none => none)

/-- `Component._track_invalid_activity_from_row`, folded over the emitted
rows: the stringified `id` of every row whose (first) primary-key column is
present but `None` or empty, when the row carries a truthy `id`. -/
def trackedInvalidActivities (cfg : TableConfig) (rows : List Row) : List String :=
  let pkCol := normKey (cfg.primary_keys.headD "name")
  rows.filterMap (fun r =>
    match pyGet r pkCol with
    | some v =>
      if isNoneOrEmptyStr v then
        match pyGet r "id" with
        | some iv => if pyTruthy iv then some (pyStr iv) else none
        | none => none
      else none
    | none => none)

/-- `Component._extract_child_table` line 168:
`[pid for pid in parent_ids if pid not in self.invalid_activities]`. -/
def validParentIds (candidates invalid : List String) : List String :=
  candidates.filter (fun pid => !invalid.contains pid)

/-- The `id` column of an emitted row, stringified as the tracking code does
(`str(row["id"])`); absent ids give the empty string. -/
def idString (row : Row) : String :=
  match pyGet row "id" with
  | some v => pyStr v
  | none => ""

/-- The `activities` table schema from `table_config.py`
(`DEFAULT_TABLE_CONFIGS["activities"]`). -/
def activitiesConfig : TableConfig where
  columns :=
    ["name", "title", "description", "direction", "time", "time_open", "time_close",
     "stage", "action", "clid", "did", "queue.name", "queue.title", "user.name",
     "user.title", "contact.name", "contact.title", "account.name", "account.title",
     "ticket.name", "ticket.title", "campaign.name", "campaign.title", "call.name",
     "edited", "created"]
  primary_keys := ["name"]
  secondary_keys := []
  keys := ["queue.name", "user.name", "contact.name", "account.name", "ticket.name", "campaign.name"]
  list_columns := []
  list_of_dicts_columns := []
  no_ns_columns := []

/-! ### Specification-side definitions

These follow the spec's words, for comparison against the source-derived
definitions above. -/

/-- Spec side of claim C4: the concatenation of the string values of all
primary-key columns followed by all secondary-key columns, in that fixed
order, absent values contributing the empty string. -/
def specKeyConcat (cfg : TableConfig) (row : Row) : String :=
  strJoin ((gcKeyCols cfg).map (fun c => strForId (pyGet row c)))

/-- Spec side of claim C9: the string contains an HTML-tag-like substring of
the form `<...>`. -/
def hasTagLike (l : List Char) : Prop :=
  ∃ a mid b, l = a ++ '<' :: (mid ++ '>' :: b)

/-- The shape of tag the non-greedy, newline-excluding regex actually
removes: a `<...>` substring whose interior contains no newline. -/
def hasNlFreeTag (l : List Char) : Prop :=
  ∃ a mid b, l = a ++ '<' :: (mid ++ '>' :: b) ∧ '\n' ∉ mid

/-- No `>` is reachable from the start of the list without first crossing a
newline (invariant used for the tag-stripping proof). -/
def tailTagSafe (l : List Char) : Prop :=
  ¬ ∃ mid b, l = mid ++ '>' :: b ∧ '\n' ∉ mid

/-- Descriptor of one hashed key-column contribution: `(true, w)` renders as
`server ++ "_" ++ w`, `(false, w)` renders as `w` (tenant-independent). -/
def descRender (server : String) : List (Bool × String) → List Char
  | [] => []
  | (true, w) :: ds => server.data ++ '_' :: (w.data ++ descRender server ds)
  | (false, w) :: ds => w.data ++ descRender server ds

/-- The tenant-independent descriptor list of the hash input for a cleaned
row: one entry per present primary/secondary key column. -/
def descOf (cfg : TableConfig) (cRow : Row) : List (Bool × String) :=
  (gcKeyCols cfg).filterMap (fun c =>
    match pyGet cRow c with
    | none => none
    | some v =>
      if shouldNsCol cfg c && !isNoneOrEmptyStr v then some (true, pyStr v)
      else some (false, strForId (some v)))

/-- The number of tenant-dependent contributions in a descriptor list. -/
def descTrueCount (ds : List (Bool × String)) : Nat :=
  ds.countP (fun d => d.1 = true)

/-- Total rendered length of the tenant-independent parts. -/
def descBaseLen (ds : List (Bool × String)) : Nat :=
  (ds.map (fun d => d.2.length)).sum

/-- The string actually hashed by `_generate_compound_id` for a raw row under
a given tenant (the namespaced concatenation fed to MD5). -/
def hashInputOf (server : String) (cfg : TableConfig) (row : Row) : String :=
  strJoin (gcValues cfg (ns_key_columns server cfg (add_server_column server (clean_html row))))

/-- The cleaned, server-extended, tenant-namespaced row that
`_generate_compound_id` receives inside `transform` (steps 5-7 of the
pipeline, shared by `finalizeRow` and `hashInputOf`). -/
def midRow (server : String) (cfg : TableConfig) (row : Row) : Row :=
  ns_key_columns server cfg (add_server_column server (clean_html row))

/-- `descOf` generalized to an arbitrary column list (induction form). -/
def descOfCols (cfg : TableConfig) (cRow : Row) (cols : List String) : List (Bool × String) :=
  cols.filterMap (fun c =>
    match pyGet cRow c with
    | none => none
    | some v =>
      if shouldNsCol cfg c && !isNoneOrEmptyStr v then some (true, pyStr v)
      else some (false, strForId (some v)))

/-- Whether a value is a non-empty Python list (the shape `_handle_list_columns`
explodes). -/
def isNonemptyList : Value → Bool
  | .vList (_ :: _) => true
  | _ => false

/-- The length of a list-column value as seen by the explosion step. -/
def listLenAt (row : Row) (c : String) : Nat :=
  match pyGetD row c (.vList []) with
  | .vList xs => xs.length
  | _ => 0

/-! ## Lemmas about the Python dict model -/

theorem pyGet_cons (kv : String × Value) (rest : Row) (c : String) :
    pyGet (kv :: rest) c = if kv.1 = c then some kv.2 else pyGet rest c := rfl

theorem pyGet_append (l1 l2 : Row) (c : String) :
    pyGet (l1 ++ l2) c = match pyGet l1 c with | some v => some v | none => pyGet l2 c := by
  induction l1 with
  | nil => rfl
  | cons kv rest ih =>
    by_cases h : kv.1 = c <;> simp [pyGet_cons, h, ih]

theorem pyGet_eq_none_iff (row : Row) (c : String) :
    pyGet row c = none ↔ c ∉ rowKeys row := by
  induction row with
  | nil => simp [pyGet, rowKeys]
  | cons kv rest ih =>
    by_cases h : kv.1 = c <;>
      simp [pyGet_cons, h, rowKeys, List.map_cons, ih, rowKeys] <;>
      simp [rowKeys] at ih <;> tauto

theorem pyGet_isSome_iff (row : Row) (c : String) :
    (pyGet row c).isSome = true ↔ c ∈ rowKeys row := by
  rw [Option.isSome_iff_ne_none, ne_eq, pyGet_eq_none_iff, not_not]

theorem rowHasKey_iff (row : Row) (c : String) :
    rowHasKey row c = true ↔ c ∈ rowKeys row := pyGet_isSome_iff row c

theorem pySet_of_isSome (row : Row) (c : String) (v : Value) (h : (pyGet row c).isSome = true) :
    pySet row c v = row.map (fun kv => if kv.1 = c then (kv.1, v) else kv) := by
  unfold pySet; rw [if_pos h]

theorem pySet_of_none (row : Row) (c : String) (v : Value) (h : pyGet row c = none) :
    pySet row c v = row ++ [(c, v)] := by
  unfold pySet; rw [if_neg]; simp [h]

theorem pyGet_updateMap (row : Row) (c c' : String) (v : Value) :
    pyGet (row.map (fun kv => if kv.1 = c then (kv.1, v) else kv)) c' =
      if c' = c then (pyGet row c).map (fun _ => v) else pyGet row c' := by
  induction row with
  | nil => by_cases h : c' = c <;> simp [pyGet, h]
  | cons kv rest ih =>
    rw [List.map_cons]
    by_cases hk : kv.1 = c
    · rw [if_pos hk]
      by_cases hc : c' = c
      · have hkc : kv.1 = c' := hk.trans hc.symm
        rw [pyGet_cons, if_pos hkc]
        simp [hc, pyGet_cons, hk]
      · have hkc : ¬ kv.1 = c' := fun hh => hc (hh.symm.trans hk)
        simp [pyGet_cons, hkc, hc, ih]
    · rw [if_neg hk]
      by_cases hc : c' = c
      · subst hc
        have hkc : ¬ kv.1 = c' := hk
        simp [pyGet_cons, hkc, ih, hk]
      · simp [pyGet_cons, ih, hc]

theorem pyGet_pySet_same (row : Row) (c : String) (v : Value) :
    pyGet (pySet row c v) c = some v := by
  by_cases h : (pyGet row c).isSome
  · rw [pySet_of_isSome _ _ _ h, pyGet_updateMap, if_pos rfl]
    cases hg : pyGet row c with
    | some w => rfl
    | none => rw [hg] at h; simp at h
  · have hn : pyGet row c = none := by
      cases hg : pyGet row c
      · rfl
      · rw [hg] at h; simp at h
    rw [pySet_of_none _ _ _ hn, pyGet_append, hn]
    simp [pyGet_cons, pyGet]

theorem pyGet_pySet_ne (row : Row) (c c' : String) (v : Value) (h : c' ≠ c) :
    pyGet (pySet row c v) c' = pyGet row c' := by
  by_cases hs : (pyGet row c).isSome
  · rw [pySet_of_isSome _ _ _ hs, pyGet_updateMap, if_neg h]
  · have hn : pyGet row c = none := by
      cases hg : pyGet row c
      · rfl
      · rw [hg] at hs; simp at hs
    rw [pySet_of_none _ _ _ hn, pyGet_append]
    cases hg : pyGet row c' with
    | some w => rfl
    | none => simp [pyGet_cons, pyGet, Ne.symm h]

theorem pyGetLast_cons (kv : String × Value) (row : Row) (c : String) :
    pyGetLast (kv :: row) c =
      match pyGetLast row c with
      | some v => some v
      | none => if kv.1 = c then some kv.2 else none := by
  unfold pyGetLast
  rw [List.reverse_cons, pyGet_append]
  cases pyGetLast row c <;> simp [pyGetLast, pyGet_cons, pyGet]

theorem pyGet_pyExtend (row : Row) (acc : Row) (c : String) :
    pyGet (pyExtend acc row) c =
      match pyGetLast row c with
      | some v => some v
      | none => pyGet acc c := by
  induction row generalizing acc with
  | nil => rfl
  | cons kv rest ih =>
    show pyGet (pyExtend (pySet acc kv.1 kv.2) rest) c = _
    rw [ih, pyGetLast_cons]
    cases hr : pyGetLast rest c with
    | some v => rfl
    | none =>
      by_cases hk : kv.1 = c
      · subst hk; simp [pyGet_pySet_same]
      · simp [hk, pyGet_pySet_ne _ _ _ _ (fun hh => hk hh.symm)]

theorem pyGetLast_eq_pyGet (row : Row) (c : String) (h : (rowKeys row).Nodup) :
    pyGetLast row c = pyGet row c := by
  induction row with
  | nil => rfl
  | cons kv rest ih =>
    simp only [rowKeys, List.map_cons, List.nodup_cons] at h
    rw [pyGetLast_cons, ih h.2, pyGet_cons]
    by_cases hk : kv.1 = c
    · subst hk
      have hnone : pyGet rest kv.1 = none :=
        (pyGet_eq_none_iff rest kv.1).mpr (fun hmem => h.1 hmem)
      simp [hnone]
    · cases hr : pyGet rest c <;> simp [hk, hr]

theorem pyGet_mapVal (f : String → Value → Value) (row : Row) (c : String) :
    pyGet (row.map (fun kv => (kv.1, f kv.1 kv.2))) c = (pyGet row c).map (f c) := by
  induction row with
  | nil => rfl
  | cons kv rest ih =>
    by_cases h : kv.1 = c
    · subst h; simp [List.map_cons, pyGet_cons]
    · simp [List.map_cons, pyGet_cons, h, ih]

theorem rowKeys_mapVal (f : String → Value → Value) (row : Row) :
    rowKeys (row.map (fun kv => (kv.1, f kv.1 kv.2))) = rowKeys row := by
  induction row with
  | nil => rfl
  | cons kv rest _ => simp [rowKeys]

theorem rowKeys_pySet (row : Row) (c : String) (v : Value) :
    rowKeys (pySet row c v) =
      if (pyGet row c).isSome then rowKeys row else rowKeys row ++ [c] := by
  by_cases hs : (pyGet row c).isSome
  · rw [pySet_of_isSome _ _ _ hs, if_pos hs]
    induction row with
    | nil => rfl
    | cons kv rest ih =>
      rw [List.map_cons]
      by_cases hk : kv.1 = c
      · rw [if_pos hk]
        simp only [rowKeys, List.map_cons] at ih ⊢
        by_cases hrest : (pyGet rest c).isSome
        · rw [ih hrest]
        · congr 1
          have hnone : pyGet rest c = none := by
            cases hg : pyGet rest c
            · rfl
            · rw [hg] at hrest; simp at hrest
          clear ih hs hrest
          induction rest with
          | nil => rfl
          | cons kv2 r2 ih2 =>
            rw [pyGet_cons] at hnone
            by_cases hk2 : kv2.1 = c
            · rw [if_pos hk2] at hnone; simp at hnone
            · rw [if_neg hk2] at hnone
              simp only [List.map_cons, if_neg hk2]
              simpa using ih2 hnone
      · rw [if_neg hk]
        rw [pyGet_cons, if_neg hk] at hs
        simp only [rowKeys, List.map_cons] at ih ⊢
        rw [ih hs]
  · have hn : pyGet row c = none := by
      cases hg : pyGet row c
      · rfl
      · rw [hg] at hs; simp at hs
    rw [pySet_of_none _ _ _ hn, if_neg hs]
    simp [rowKeys]

theorem nodup_pySet (row : Row) (c : String) (v : Value) (h : (rowKeys row).Nodup) :
    (rowKeys (pySet row c v)).Nodup := by
  rw [rowKeys_pySet]
  by_cases hs : (pyGet row c).isSome
  · rw [if_pos hs]; exact h
  · rw [if_neg hs]
    have hn : pyGet row c = none := by
      cases hg : pyGet row c
      · rfl
      · rw [hg] at hs; simp at hs
    have := (pyGet_eq_none_iff row c).mp hn
    simp [List.nodup_append, h, this]

theorem nodup_pyExtend (acc row : Row) (h : (rowKeys acc).Nodup) :
    (rowKeys (pyExtend acc row)).Nodup := by
  induction row generalizing acc with
  | nil => exact h
  | cons kv rest ih => exact ih _ (nodup_pySet _ _ _ h)

theorem pyExtend_append_of_disjoint (row : Row) (acc : Row)
    (hdis : ∀ k ∈ rowKeys row, pyGet acc k = none) (hnd : (rowKeys row).Nodup) :
    pyExtend acc row = acc ++ row := by
  induction row generalizing acc with
  | nil => simp [pyExtend]
  | cons kv rest ih =>
    show pyExtend (pySet acc kv.1 kv.2) rest = _
    have hk : pyGet acc kv.1 = none := hdis kv.1 (by simp [rowKeys])
    rw [pySet_of_none _ _ _ hk]
    simp only [rowKeys, List.map_cons, List.nodup_cons] at hnd
    rw [ih _ ?_ hnd.2]
    · simp
    · intro k hkmem
      rw [pyGet_append]
      rw [hdis k (by rw [rowKeys, List.map_cons]; exact List.mem_cons_of_mem _ hkmem)]
      have hne : kv.1 ≠ k := fun hh => hnd.1 (hh ▸ hkmem)
      simp [pyGet_cons, pyGet, hne]

theorem pyExtend_headTwo (row : Row) (a : String) (b : String) (hab : a ≠ b) :
    ∀ (va vb : Value) (rest0 : Row), ∃ v2 v3 rest1,
      pyExtend ((a, va) :: (b, vb) :: rest0) row = (a, v2) :: (b, v3) :: rest1 := by
  induction row with
  | nil => exact fun va vb rest0 => ⟨va, vb, rest0, rfl⟩
  | cons kv rest ih =>
    intro va vb rest0
    show ∃ v2 v3 rest1,
      pyExtend (pySet ((a, va) :: (b, vb) :: rest0) kv.1 kv.2) rest = _
    by_cases hs : (pyGet ((a, va) :: (b, vb) :: rest0) kv.1).isSome
    · rw [pySet_of_isSome _ _ _ hs]
      simp only [List.map_cons]
      rw [show (if (a, va).1 = kv.1 then ((a, va).1, kv.2) else (a, va)) =
            (a, if a = kv.1 then kv.2 else va) by dsimp; split <;> rfl,
          show (if (b, vb).1 = kv.1 then ((b, vb).1, kv.2) else (b, vb)) =
            (b, if b = kv.1 then kv.2 else vb) by dsimp; split <;> rfl]
      exact ih _ _ _
    · rw [pySet_of_none _ _ _ (by
        cases hg : pyGet ((a, va) :: (b, vb) :: rest0) kv.1
        · rfl
        · rw [hg] at hs; simp at hs)]
      simp only [List.cons_append]
      exact ih _ _ _

theorem pyExtend_headOne (row : Row) (a : String) :
    ∀ (va : Value) (rest0 : Row), ∃ v2 rest1,
      pyExtend ((a, va) :: rest0) row = (a, v2) :: rest1 := by
  induction row with
  | nil => exact fun va rest0 => ⟨va, rest0, rfl⟩
  | cons kv rest ih =>
    intro va rest0
    show ∃ v2 rest1, pyExtend (pySet ((a, va) :: rest0) kv.1 kv.2) rest = _
    by_cases hs : (pyGet ((a, va) :: rest0) kv.1).isSome
    · rw [pySet_of_isSome _ _ _ hs]
      simp only [List.map_cons]
      rw [show (if (a, va).1 = kv.1 then ((a, va).1, kv.2) else (a, va)) =
            (a, if a = kv.1 then kv.2 else va) by dsimp; split <;> rfl]
      exact ih _ _
    · rw [pySet_of_none _ _ _ (by
        cases hg : pyGet ((a, va) :: rest0) kv.1
        · rfl
        · rw [hg] at hs; simp at hs)]
      simp only [List.cons_append]
      exact ih _ _

/-! ## MD5 sanity facts -/

theorem md5Hex_empty : md5Hex "" = "d41d8cd98f00b204e9800998ecf8427e" := by decide

theorem md5Hex_ne_empty (s : String) : md5Hex s ≠ "" := by
  intro h
  have h2 : hexChars (md5Bytes (strBytes s)) = [] := congrArg String.data h
  simp only [md5Bytes, wordLEBytes, List.cons_append, hexChars] at h2
  exact (List.cons_ne_nil _ _) h2

/-! ## Claim C3: pagination of extract_table -/

theorem foldl_append_eq_flatten (fetch : Nat → List Row) (l : List Nat) :
    ∀ acc : List Row, l.foldl (fun a i => a ++ fetch i) acc = acc ++ (l.map fetch).flatten := by
  induction l with
  | nil => intro acc; simp
  | cons x xs ih => intro acc; simp [ih, List.append_assoc]

/-- Claim C3: for every table, total `T ≥ 0` and page size `L > 0`,
`extract_table` fetches pages at skip offsets `0, L, 2L, …` — exactly
`⌈T/L⌉` of them when `T > 0` and exactly one when `T = 0` — and returns the
concatenation of the fetched pages in fetch order. -/
theorem claim_C3 (fetch : Nat → List Row) (total limit : Nat) (hL : 0 < limit) :
    extract_table_offsets total limit =
      (List.range (if 0 < total then (total + limit - 1) / limit else 1)).map
        (fun i => i * limit)
    ∧ extract_table fetch total limit =
      ((extract_table_offsets total limit).map fetch).flatten := by
  constructor
  · unfold extract_table_offsets pyRange
    congr 2
    cases total with
    | zero =>
      rw [if_neg (lt_irrefl 0)]
      have h1 : max 0 1 = 1 := rfl
      rw [h1]
      have h2 : 1 + limit - 1 = limit := by omega
      rw [h2, Nat.div_self hL]
    | succ t =>
      rw [Nat.max_eq_left (by omega), if_pos (by omega)]
  · unfold extract_table
    rw [foldl_append_eq_flatten fetch _ []]
    rfl

/-- Witness for claim C3, at the spec's own scenario (`total = 2500`,
`limit = 1000` giving three fetches at skips 0, 1000, 2000). -/
theorem claim_C3_witness :
    extract_table_offsets 2500 1000 = [0, 1000, 2000] ∧
    extract_table (fun i => [[("skip", Value.vInt (Int.ofNat i))]]) 2500 1000 =
      [[("skip", Value.vInt (Int.ofNat 0))], [("skip", Value.vInt (Int.ofNat 1000))],
       [("skip", Value.vInt (Int.ofNat 2000))]] := by
  have h := claim_C3 (fun i => [[("skip", Value.vInt (Int.ofNat i))]]) 2500 1000 (by decide)
  have h1 : extract_table_offsets 2500 1000 = [0, 1000, 2000] := by
    rw [h.1]; decide
  refine ⟨h1, ?_⟩
  rw [h.2, h1]
  rfl

/-! ## Claim C6: retry accounting -/

theorem retryGo_allFail (succeeds : Nat → Bool) (hfail : ∀ i, succeeds i = false) :
    ∀ fuel i, 0 < fuel →
      retryGo succeeds i fuel =
        (fuel, (List.range (fuel - 1)).map (fun j => i + 1 + j), false) := by
  intro fuel
  induction fuel with
  | zero => intro i h; exact absurd h (lt_irrefl 0)
  | succ f ih =>
    intro i _
    by_cases hf : f = 0
    · subst hf
      simp [retryGo, hfail]
    · have hfpos : 0 < f := Nat.pos_of_ne_zero hf
      simp only [retryGo, hfail i, if_false, hf, ite_false, Bool.false_eq_true]
      rw [ih (i+1) hfpos]
      refine Prod.ext (by omega) (Prod.ext ?_ rfl)
      show (i + 1) :: (List.range (f - 1)).map (fun j => i + 1 + 1 + j) =
        (List.range (f + 1 - 1)).map (fun j => i + 1 + j)
      obtain ⟨f', rfl⟩ : ∃ f', f = f' + 1 := ⟨f - 1, by omega⟩
      simp only [Nat.add_sub_cancel, List.range_succ_eq_map, List.map_cons, List.map_map]
      refine congrArg₂ _ (by omega) ?_
      apply List.map_congr_left
      intro j _
      simp [Function.comp]
      omega

theorem retryGo_succeedsAt (succeeds : Nat → Bool) :
    ∀ d fuel i, d + 1 ≤ fuel → (∀ j, j < d → succeeds (i + j) = false) →
      succeeds (i + d) = true →
      (retryGo succeeds i fuel).1 = d + 1 ∧ (retryGo succeeds i fuel).2.2 = true := by
  intro d
  induction d with
  | zero =>
    intro fuel i hfuel _ hsucc
    obtain ⟨f, rfl⟩ : ∃ f, fuel = f + 1 := ⟨fuel - 1, by omega⟩
    rw [Nat.add_zero] at hsucc
    simp [retryGo, hsucc]
  | succ d ih =>
    intro fuel i hfuel hfail hsucc
    obtain ⟨f, rfl⟩ : ∃ f, fuel = f + 1 := ⟨fuel - 1, by omega⟩
    have h0 : succeeds i = false := by simpa using hfail 0 (by omega)
    have hf : f ≠ 0 := by omega
    have hrec := ih f (i+1) (by omega)
      (fun j hj => by
        rw [show i + 1 + j = i + (j+1) by omega]
        exact hfail (j+1) (by omega))
      (by
        rw [show i + 1 + d = i + (d+1) by omega]
        exact hsucc)
    simp only [retryGo, h0, if_false, hf, ite_false, Bool.false_eq_true]
    exact ⟨by simp [hrec.1], by simp [hrec.2]⟩

/-- Claim C6: a client whose every attempt fails makes exactly 8 attempts,
waiting 1s, 2s, …, 7s between consecutive attempts, before the fatal
failure; a client succeeding on attempt K ≤ 8 makes exactly K attempts; and
the fatal message is built from the failure class only, never from the raw
exception payload.  (The retry loop itself lives in the external
`keboola.http_client` library and is modelled from the spec; the message
construction is `_request_with_retry` in the source.) -/
theorem claim_C6 (succeeds : Nat → Bool) :
    ((∀ i, succeeds i = false) →
      retryRun succeeds = (8, [1, 2, 3, 4, 5, 6, 7], false))
    ∧ (∀ K, 1 ≤ K → K ≤ 8 → (∀ i, i < K - 1 → succeeds i = false) →
        succeeds (K - 1) = true →
        (retryRun succeeds).1 = K ∧ (retryRun succeeds).2.2 = true)
    ∧ (∀ url n p p', requestFailMessage url ⟨n, p⟩ = requestFailMessage url ⟨n, p'⟩) := by
  refine ⟨?_, ?_, fun url n p p' => rfl⟩
  · intro hfail
    rw [retryRun, MAX_RETRIES, retryGo_allFail succeeds hfail 8 0 (by omega)]
    decide
  · intro K hK1 hK8 hfail hsucc
    have := retryGo_succeedsAt succeeds (K - 1) 8 0 (by omega)
      (fun j hj => by simpa using hfail j hj) (by simpa using hsucc)
    rw [retryRun, MAX_RETRIES]
    exact ⟨this.1.trans (by omega), this.2⟩

/-- Witness for claim C6: all-failing attempts give 8 attempts and waits
1s..7s; succeeding on the third attempt gives exactly 3 attempts; payloads
do not influence the fatal message. -/
theorem claim_C6_witness :
    retryRun (fun _ => false) = (8, [1, 2, 3, 4, 5, 6, 7], false)
    ∧ (retryRun (fun i => i == 2)).1 = 3 ∧ (retryRun (fun i => i == 2)).2.2 = true
    ∧ requestFailMessage "/api/v6/users.json" ⟨"TimeoutError", "secret token"⟩ =
        requestFailMessage "/api/v6/users.json" ⟨"TimeoutError", "other payload"⟩ := by
  refine ⟨(claim_C6 _).1 (fun i => rfl), ?_, ?_,
    (claim_C6 (fun _ => false)).2.2 "/api/v6/users.json" "TimeoutError" "secret token" "other payload"⟩
  · exact ((claim_C6 _).2.1 3 (by omega) (by omega)
      (fun i hi => by simp; omega) (by decide)).1
  · exact ((claim_C6 _).2.1 3 (by omega) (by omega)
      (fun i hi => by simp; omega) (by decide)).2

/-! ## Claim C7: authentication -/

theorem except_error_of_ne_ok (x : Except String String) (h : ∀ s, x ≠ .ok s) :
    ∃ e, x = .error e := by
  cases x with
  | error e => exact ⟨e, rfl⟩
  | ok s => exact absurd rfl (h s)

/-- Claim C7: `authenticate` succeeds and stores the token exactly when the
status is 200 and the response carries a non-empty string token, either as a
bare string result or nested under the result object's `accessToken` field;
every other shape — non-success status, missing token, or empty token — is a
fatal error. -/
theorem claim_C7 (resp : LoginResponse) :
    (∀ s, resp.status_code = 200 → responseResult resp.body = .vStr s → s ≠ "" →
      authenticate resp = .ok s)
    ∧ (∀ fs s, resp.status_code = 200 → responseResult resp.body = .vDict fs →
        pyGetD fs "accessToken" .vNull = .vStr s → s ≠ "" →
        authenticate resp = .ok s)
    ∧ (resp.status_code ≠ 200 → ∃ e, authenticate resp = .error e)
    ∧ ((∀ s, s ≠ "" → tokenOfResult (responseResult resp.body) ≠ .vStr s) →
        ∃ e, authenticate resp = .error e) := by
  refine ⟨?_, ?_, ?_, ?_⟩
  · intro s h200 hres hs
    simp [authenticate, h200, hres, pyTruthy, tokenOfResult, hs]
  · intro fs s h200 hres htok hs
    have hfs : fs ≠ [] := by
      intro hnil
      rw [hnil] at htok
      simp [pyGetD, pyGet] at htok
    simp [authenticate, h200, hres, pyTruthy, tokenOfResult, htok, hs, hfs]
  · intro hne
    exact except_error_of_ne_ok _ (fun s => by simp [authenticate, hne])
  · intro htok
    refine except_error_of_ne_ok _ (fun t => ?_)
    by_cases h200 : resp.status_code = 200
    · by_cases htr : pyTruthy (responseResult resp.body) = true
      · cases hval : tokenOfResult (responseResult resp.body) with
        | vStr s =>
          by_cases hs : s = ""
          · simp [authenticate, h200, htr, hval, hs]
          · exact absurd hval (htok s hs)
        | vNull => simp [authenticate, h200, htr, hval]
        | vBool b => simp [authenticate, h200, htr, hval]
        | vInt n => simp [authenticate, h200, htr, hval]
        | vList xs => simp [authenticate, h200, htr, hval]
        | vDict fs => simp [authenticate, h200, htr, hval]
      · simp [authenticate, h200, htr]
    · simp [authenticate, h200]

/-- Witness for claim C7: both accepted token shapes succeed; a non-200
status fails; and the spec's own scenario — a login response whose result is
the empty string — fails fatally. -/
theorem claim_C7_witness :
    authenticate ⟨200, .vDict [("result", .vStr "tok")]⟩ = .ok "tok"
    ∧ authenticate ⟨200, .vDict [("result", .vDict [("accessToken", .vStr "tok2")])]⟩ = .ok "tok2"
    ∧ (∃ e, authenticate ⟨500, .vDict [("result", .vStr "tok")]⟩ = .error e)
    ∧ (∃ e, authenticate ⟨200, .vDict [("result", .vStr "")]⟩ = .error e) := by
  refine ⟨?_, ?_, ?_, ?_⟩
  · exact (claim_C7 _).1 "tok" rfl rfl (by decide)
  · exact (claim_C7 _).2.1 [("accessToken", .vStr "tok2")] "tok2" rfl rfl rfl (by decide)
  · exact (claim_C7 _).2.2.1 (by decide)
  · refine (claim_C7 _).2.2.2 ?_
    intro s hs hval
    have : ("" : String) = s := by
      have := congrArg (fun v => match v with | Value.vStr t => t | _ => "") hval
      simpa using this
    exact hs this.symm

/-! ## Claim C10: a non-list first explodable column short-circuits -/

/-- Claim C10: when the first declared list column present in the row does
not hold a non-empty list, `_handle_list_columns` emits exactly the one
unmodified row, exploding none of the other declared list columns. -/
theorem claim_C10 (cfg : TableConfig) (row : Row) (c : String) (cs : List String)
    (hcols : (cfg.list_columns.map normKey).filter (fun x => rowHasKey row x) = c :: cs)
    (hval : isNonemptyList (pyGetD row c (.vList [])) = false) :
    handle_list_columns cfg row = [row] := by
  simp only [handle_list_columns, hcols]
  cases hv : pyGetD row c (.vList []) with
  | vList xs =>
    cases xs with
    | nil => rfl
    | cons v vs =>
      rw [hv, isNonemptyList] at hval
      exact absurd hval (by simp)
  | vNull => rfl
  | vBool b => rfl
  | vInt n => rfl
  | vStr s => rfl
  | vDict fs => rfl

/-- Witness for claim C10: the first present list column holds `None`, the
second holds a non-empty list, and the row is still emitted exactly once,
unmodified. -/
theorem claim_C10_witness :
    handle_list_columns
      { columns := [], primary_keys := [], secondary_keys := [], keys := [],
        list_columns := ["a", "b"], list_of_dicts_columns := [], no_ns_columns := [] }
      [("a", .vNull), ("b", .vList [.vInt 1, .vInt 2])]
    = [[("a", .vNull), ("b", .vList [.vInt 1, .vInt 2])]] :=
  claim_C10 _ _ "a" ["b"] rfl rfl

/-! ## Claim C5: list-explosion cardinality -/

theorem hlcRec_branch (rest : List String) (r : Row) :
    (if rest.isEmpty then [r] else handle_list_columns_recursive rest r) =
      handle_list_columns_recursive rest r := by
  cases rest <;> rfl

theorem hlcRec_cons_nonempty (c : String) (rest : List String) (row : Row)
    (v : Value) (vs : List Value) (hv : pyGetD row c (.vList []) = .vList (v :: vs)) :
    handle_list_columns_recursive (c :: rest) row =
      (v :: vs).flatMap (fun value => handle_list_columns_recursive rest (pySet row c value)) := by
  simp only [handle_list_columns_recursive, hv]
  refine congrArg _ (funext fun value => ?_)
  exact hlcRec_branch rest (pySet row c value)

theorem sum_map_const_nat (l : List Value) (P : Nat) :
    (l.map (fun _ => P)).sum = l.length * P := by
  induction l with
  | nil => simp
  | cons x xs ih => simp [ih, Nat.succ_mul]; omega

theorem rowHasKey_of_isNonemptyList (row : Row) (c : String)
    (h : isNonemptyList (pyGetD row c (.vList [])) = true) :
    rowHasKey row c = true := by
  cases hg : pyGet row c with
  | some v => simp [rowHasKey, hg]
  | none => rw [pyGetD, hg] at h; simp [isNonemptyList] at h

theorem listLenAt_pySet_ne (row : Row) (c c' : String) (v : Value) (h : c' ≠ c) :
    listLenAt (pySet row c v) c' = listLenAt row c' := by
  rw [listLenAt, listLenAt, pyGetD, pyGetD, pyGet_pySet_ne _ _ _ _ h]

theorem hlcRec_cardinality (cols : List String) :
    ∀ row : Row, cols.Nodup →
    (∀ c ∈ cols, isNonemptyList (pyGetD row c (.vList [])) = true) →
    (handle_list_columns_recursive cols row).length = (cols.map (listLenAt row)).prod
    ∧ ∀ out ∈ handle_list_columns_recursive cols row, ∀ k, k ∉ cols →
        pyGet out k = pyGet row k := by
  induction cols with
  | nil =>
    intro row _ _
    refine ⟨by simp [handle_list_columns_recursive], ?_⟩
    intro out hout k _
    simp only [handle_list_columns_recursive, List.mem_singleton] at hout
    rw [hout]
  | cons c rest ih =>
    intro row hnd hall
    have hc := hall c (List.mem_cons_self c rest)
    obtain ⟨v, vs, hv⟩ : ∃ v vs, pyGetD row c (.vList []) = .vList (v :: vs) := by
      cases hval : pyGetD row c (.vList []) with
      | vList xs =>
        cases xs with
        | nil => rw [hval] at hc; exact absurd hc (by decide)
        | cons v vs => exact ⟨v, vs, rfl⟩
      | vNull => rw [hval] at hc; exact absurd hc (by decide)
      | vBool b => rw [hval] at hc; cases b <;> exact absurd hc (by decide)
      | vInt n => rw [hval] at hc; exact absurd hc (by simp [isNonemptyList])
      | vStr s => rw [hval] at hc; exact absurd hc (by simp [isNonemptyList])
      | vDict fs => rw [hval] at hc; exact absurd hc (by simp [isNonemptyList])
    rw [hlcRec_cons_nonempty c rest row v vs hv]
    simp only [List.nodup_cons] at hnd
    have hrec : ∀ value : Value,
        (handle_list_columns_recursive rest (pySet row c value)).length =
          (rest.map (listLenAt row)).prod
        ∧ ∀ out ∈ handle_list_columns_recursive rest (pySet row c value), ∀ k, k ∉ rest →
            pyGet out k = pyGet (pySet row c value) k := by
      intro value
      have hne : ∀ c' ∈ rest, c' ≠ c := fun c' hmem hh => hnd.1 (hh ▸ hmem)
      have h1 := ih (pySet row c value) hnd.2 (fun c' hmem => by
        rw [pyGetD, pyGet_pySet_ne _ _ _ _ (hne c' hmem)]
        exact hall c' (List.mem_cons_of_mem c hmem))
      refine ⟨?_, h1.2⟩
      rw [h1.1]
      refine congrArg _ (List.map_congr_left fun c' hmem => ?_)
      exact listLenAt_pySet_ne row c c' value (hne c' hmem)
    constructor
    · rw [List.length_flatMap]
      simp only [Function.comp_def]
      have hmap : ((v :: vs).map
          (fun value => (handle_list_columns_recursive rest (pySet row c value)).length)) =
          (v :: vs).map (fun _ => (rest.map (listLenAt row)).prod) :=
        List.map_congr_left fun value _ => (hrec value).1
      rw [hmap, sum_map_const_nat]
      simp only [List.map_cons, List.prod_cons]
      rw [listLenAt, hv]
    · intro out hout k hk
      rw [List.mem_flatMap] at hout
      obtain ⟨value, _, hmem⟩ := hout
      have hkr : k ∉ rest := fun hh => hk (List.mem_cons_of_mem c hh)
      have hkc : k ≠ c := fun hh => hk (hh ▸ List.mem_cons_self c rest)
      rw [(hrec value).2 out hmem k hkr, pyGet_pySet_ne _ _ _ _ hkc]

theorem handle_eq_hlcRec (cfg : TableConfig) (row : Row)
    (hnd : (cfg.list_columns.map normKey).Nodup) :
    handle_list_columns cfg row =
      handle_list_columns_recursive
        ((cfg.list_columns.map normKey).filter (fun c => rowHasKey row c)) row := by
  cases hfil : (cfg.list_columns.map normKey).filter (fun c => rowHasKey row c) with
  | nil => simp only [handle_list_columns, hfil, handle_list_columns_recursive]
  | cons c cs =>
    have hndf : (c :: cs).Nodup := hfil ▸ hnd.filter _
    simp only [List.nodup_cons] at hndf
    have hcs : (c :: cs).filter (fun x => x != c) = cs := by
      rw [List.filter_cons]
      simp only [bne_self_eq_false, Bool.false_eq_true, if_false]
      exact List.filter_eq_self.mpr (fun a ha => by
        simp only [bne_iff_ne, ne_eq]
        exact fun hh => hndf.1 (hh ▸ ha))
    simp only [handle_list_columns, hfil, hcs]
    cases hv : pyGetD row c (.vList []) with
    | vList xs =>
      cases xs with
      | nil => simp [handle_list_columns_recursive, hv]
      | cons v vs =>
        simp only [handle_list_columns_recursive, hv]
    | vNull => simp [handle_list_columns_recursive, hv]
    | vBool b => simp [handle_list_columns_recursive, hv]
    | vInt n => simp [handle_list_columns_recursive, hv]
    | vStr s => simp [handle_list_columns_recursive, hv]
    | vDict fs => simp [handle_list_columns_recursive, hv]

/-- Claim C5: when every declared list column is present and holds a
non-empty list, the list-explosion step emits exactly the product of the
list lengths as rows, and every non-exploded column is identical across the
emitted rows (equal to its value in the input row). -/
theorem claim_C5 (cfg : TableConfig) (row : Row)
    (hnd : (cfg.list_columns.map normKey).Nodup)
    (hall : ∀ c ∈ cfg.list_columns.map normKey,
      isNonemptyList (pyGetD row c (.vList [])) = true) :
    (handle_list_columns cfg row).length =
      ((cfg.list_columns.map normKey).map (listLenAt row)).prod
    ∧ ∀ out ∈ handle_list_columns cfg row, ∀ k, k ∉ cfg.list_columns.map normKey →
        pyGet out k = pyGet row k := by
  have hfil : (cfg.list_columns.map normKey).filter (fun c => rowHasKey row c) =
      cfg.list_columns.map normKey :=
    List.filter_eq_self.mpr (fun c hc => rowHasKey_of_isNonemptyList row c (hall c hc))
  rw [handle_eq_hlcRec cfg row hnd, hfil]
  exact hlcRec_cardinality (cfg.list_columns.map normKey) row hnd hall

/-- Witness for claim C5: two list columns of lengths 2 and 3 yield exactly
6 rows. -/
theorem claim_C5_witness :
    (handle_list_columns
      { columns := [], primary_keys := [], secondary_keys := [], keys := [],
        list_columns := ["tags", "cats"], list_of_dicts_columns := [], no_ns_columns := [] }
      [("tags", .vList [.vStr "a", .vStr "b"]),
       ("cats", .vList [.vStr "x", .vStr "y", .vStr "z"]),
       ("name", .vStr "n1")]).length = 6 := by
  have h := (claim_C5
    { columns := [], primary_keys := [], secondary_keys := [], keys := [],
      list_columns := ["tags", "cats"], list_of_dicts_columns := [], no_ns_columns := [] }
    [("tags", .vList [.vStr "a", .vStr "b"]),
     ("cats", .vList [.vStr "x", .vStr "y", .vStr "z"]),
     ("name", .vStr "n1")] (by decide) (by decide)).1
  rw [h]
  rfl

/-! ## Claim C9: HTML sanitization -/

theorem findTagEnd_length : ∀ (cs rest : List Char), findTagEnd cs = some rest →
    rest.length < cs.length := by
  intro cs
  induction cs with
  | nil => intro rest h; simp [findTagEnd] at h
  | cons c cs' ih =>
    intro rest h
    simp only [findTagEnd] at h
    by_cases h1 : c = '>'
    · rw [if_pos h1] at h
      cases h
      simp
    · rw [if_neg h1] at h
      by_cases h2 : c = '\n'
      · rw [if_pos h2] at h; cases h
      · rw [if_neg h2] at h
        have := ih rest h
        simp
        omega

theorem stripTagsGo_fuel_irrel : ∀ (f1 f2 : Nat) (l : List Char),
    l.length ≤ f1 → l.length ≤ f2 → stripTagsGo f1 l = stripTagsGo f2 l := by
  intro f1
  induction f1 with
  | zero =>
    intro f2 l h1 _
    have hl : l = [] := List.eq_nil_of_length_eq_zero (by omega)
    subst hl
    cases f2 <;> rfl
  | succ f ih =>
    intro f2 l h1 h2
    cases l with
    | nil => cases f2 <;> rfl
    | cons c cs =>
      obtain ⟨f2', rfl⟩ : ∃ f2', f2 = f2' + 1 := ⟨f2 - 1, by simp at h2; omega⟩
      simp only [List.length_cons] at h1 h2
      simp only [stripTagsGo]
      by_cases hc : c = '<'
      · rw [if_pos hc, if_pos hc]
        cases hf : findTagEnd cs with
        | some rest =>
          have := findTagEnd_length cs rest hf
          exact ih f2' rest (by omega) (by omega)
        | none => rw [ih f2' cs (by omega) (by omega)]
      · rw [if_neg hc, if_neg hc, ih f2' cs (by omega) (by omega)]

theorem stripTags_cons (c : Char) (cs : List Char) :
    stripTags (c :: cs) =
      if c = '<' then
        match findTagEnd cs with
        | some rest => stripTags rest
        | none => c :: stripTags cs
      else c :: stripTags cs := by
  show stripTagsGo (c :: cs).length (c :: cs) = _
  simp only [List.length_cons, stripTagsGo]
  by_cases hc : c = '<'
  · rw [if_pos hc, if_pos hc]
    cases hf : findTagEnd cs with
    | some rest =>
      have hlen := findTagEnd_length cs rest hf
      exact stripTagsGo_fuel_irrel cs.length rest.length rest (by omega) (le_refl _)
    | none => rfl
  · rw [if_neg hc, if_neg hc]
    rfl

theorem clean_html_value_vStr (s : String) :
    clean_html_value (.vStr s) =
      if String.mk (pyStripChars (stripTags s.data)) = "" then .vNull
      else .vStr (String.mk (pyStripChars (stripTags s.data))) := rfl

theorem not_hasNlFreeTag_nil : ¬ hasNlFreeTag [] := by
  rintro ⟨a, mid, b, heq, -⟩
  cases a <;> simp at heq

theorem tailTagSafe_nil : tailTagSafe [] := by
  rintro ⟨mid, b, heq, -⟩
  cases mid <;> simp at heq

theorem tailTagSafe_cons_nl (l : List Char) : tailTagSafe ('\n' :: l) := by
  rintro ⟨mid, b, heq, hnl⟩
  cases mid with
  | nil => simp at heq
  | cons m ms =>
    simp at heq
    exact hnl (heq.1 ▸ List.mem_cons_self m ms)

theorem tailTagSafe_cons (c : Char) (l : List Char) (hc : c ≠ '>') (h : tailTagSafe l) :
    tailTagSafe (c :: l) := by
  rintro ⟨mid, b, heq, hnl⟩
  cases mid with
  | nil =>
    simp at heq
    exact hc heq.1
  | cons m ms =>
    simp at heq
    exact h ⟨ms, b, heq.2, fun hm => hnl (List.mem_cons_of_mem _ hm)⟩

theorem safe_cons (c : Char) (l : List Char) (hc : c ≠ '<') (h : ¬ hasNlFreeTag l) :
    ¬ hasNlFreeTag (c :: l) := by
  rintro ⟨a, mid, b, heq, hnl⟩
  cases a with
  | nil =>
    simp at heq
    exact hc heq.1
  | cons x xs =>
    simp at heq
    exact h ⟨xs, mid, b, heq.2, hnl⟩

theorem safe_cons_lt (l : List Char) (hsafe : ¬ hasNlFreeTag l) (htail : tailTagSafe l) :
    ¬ hasNlFreeTag ('<' :: l) := by
  rintro ⟨a, mid, b, heq, hnl⟩
  cases a with
  | nil =>
    simp at heq
    exact htail ⟨mid, b, heq, hnl⟩
  | cons x xs =>
    simp at heq
    exact hsafe ⟨xs, mid, b, heq.2, hnl⟩

theorem stripTagsGo_tailSafe : ∀ (fuel : Nat) (cs : List Char), cs.length ≤ fuel →
    findTagEnd cs = none → tailTagSafe (stripTagsGo fuel cs) := by
  intro fuel
  induction fuel with
  | zero =>
    intro cs h1 _
    have hl : cs = [] := List.eq_nil_of_length_eq_zero (by omega)
    subst hl
    exact tailTagSafe_nil
  | succ f ih =>
    intro cs h1 hnone
    cases cs with
    | nil => exact tailTagSafe_nil
    | cons c cs' =>
      simp only [findTagEnd] at hnone
      by_cases hgt : c = '>'
      · rw [if_pos hgt] at hnone; cases hnone
      · rw [if_neg hgt] at hnone
        simp only [List.length_cons] at h1
        simp only [stripTagsGo]
        by_cases hnl : c = '\n'
        · have hlt : ¬ c = '<' := by rw [hnl]; decide
          rw [if_neg hlt, hnl]
          exact tailTagSafe_cons_nl _
        · rw [if_neg hnl] at hnone
          by_cases hlt : c = '<'
          · rw [if_pos hlt, hnone]
            rw [hlt]
            exact tailTagSafe_cons '<' _ (by decide) (ih cs' (by omega) hnone)
          · rw [if_neg hlt]
            exact tailTagSafe_cons c _ hgt (ih cs' (by omega) hnone)

theorem stripTagsGo_safe : ∀ (fuel : Nat) (l : List Char), l.length ≤ fuel →
    ¬ hasNlFreeTag (stripTagsGo fuel l) := by
  intro fuel
  induction fuel with
  | zero =>
    intro l h1
    have hl : l = [] := List.eq_nil_of_length_eq_zero (by omega)
    subst hl
    exact not_hasNlFreeTag_nil
  | succ f ih =>
    intro l hlen
    cases l with
    | nil => exact not_hasNlFreeTag_nil
    | cons c cs =>
      simp only [List.length_cons] at hlen
      simp only [stripTagsGo]
      by_cases hlt : c = '<'
      · rw [if_pos hlt]
        cases hf : findTagEnd cs with
        | some rest =>
          have := findTagEnd_length cs rest hf
          exact ih rest (by omega)
        | none =>
          rw [hlt]
          exact safe_cons_lt _ (ih cs (by omega)) (stripTagsGo_tailSafe f cs (by omega) hf)
      · rw [if_neg hlt]
        exact safe_cons c _ hlt (ih cs (by omega))

theorem stripTags_safe (l : List Char) : ¬ hasNlFreeTag (stripTags l) :=
  stripTagsGo_safe l.length l (le_refl _)

theorem pyStripChars_decomp (l : List Char) : ∃ p q, l = p ++ pyStripChars l ++ q := by
  refine ⟨l.takeWhile isPySpace,
    ((l.dropWhile isPySpace).reverse.takeWhile isPySpace).reverse, ?_⟩
  unfold pyStripChars
  conv_lhs => rw [← List.takeWhile_append_dropWhile (p := isPySpace) (l := l)]
  rw [List.append_assoc]
  congr 1
  conv_lhs => rw [← List.reverse_reverse (l.dropWhile isPySpace),
    ← List.takeWhile_append_dropWhile (p := isPySpace) (l := (l.dropWhile isPySpace).reverse)]
  rw [List.reverse_append]

theorem hasNlFreeTag_of_append (p m q : List Char) (h : hasNlFreeTag m) :
    hasNlFreeTag (p ++ m ++ q) := by
  obtain ⟨a, mid, b, heq, hnl⟩ := h
  refine ⟨p ++ a, mid, b ++ q, ?_, hnl⟩
  rw [heq]
  simp [List.append_assoc]

/-- Counterexample to claim C9 as stated: the value `"<a\nb>"` contains an
HTML-tag-like substring of the form `<...>`, yet the sanitization step
leaves it completely unchanged (the regex's `.` does not match a newline),
so not every `<...>` substring is stripped. -/
theorem claim_C9_counterexample :
    clean_html_value (.vStr "<a\nb>") = .vStr "<a\nb>"
    ∧ hasTagLike ("<a\nb>".data) := by
  constructor
  · rfl
  · exact ⟨[], ['a', '\n', 'b'], [], rfl⟩

/-- Claim C9, amended: the sanitization step strips every newline-free
`<...>` substring from string values (a tag-like substring containing a raw
newline survives, as the counterexample shows), leaves non-string values
unchanged, and replaces any string whose residue after stripping is empty
or whitespace-only with the explicit absent value `None` — never with an
empty string. -/
theorem claim_C9_amended :
    (∀ v : Value, (∀ s, v ≠ .vStr s) → clean_html_value v = v)
    ∧ (∀ s, clean_html_value (.vStr s) ≠ .vStr "")
    ∧ (∀ s, (stripTags s.data).all isPySpace = true → clean_html_value (.vStr s) = .vNull)
    ∧ (∀ s t, clean_html_value (.vStr s) = .vStr t → ¬ hasNlFreeTag t.data) := by
  refine ⟨?_, ?_, ?_, ?_⟩
  · intro v hv
    cases v with
    | vStr s => exact absurd rfl (hv s)
    | vNull => rfl
    | vBool b => rfl
    | vInt n => rfl
    | vList xs => rfl
    | vDict fs => rfl
  · intro s
    rw [clean_html_value_vStr]
    by_cases h : String.mk (pyStripChars (stripTags s.data)) = ""
    · rw [if_pos h]
      intro hh
      cases hh
    · rw [if_neg h]
      intro hh
      exact h (Value.vStr.inj hh)
  · intro s hws
    rw [clean_html_value_vStr]
    have hnil : pyStripChars (stripTags s.data) = [] := by
      unfold pyStripChars
      have h1 : (stripTags s.data).dropWhile isPySpace = [] := by
        rw [List.dropWhile_eq_nil_iff]
        intro x hx
        exact (List.all_eq_true.mp hws) x hx
      rw [h1]
      rfl
    rw [hnil]
    rfl
  · intro s t heq
    rw [clean_html_value_vStr] at heq
    by_cases h : String.mk (pyStripChars (stripTags s.data)) = ""
    · rw [if_pos h] at heq
      cases heq
    · rw [if_neg h] at heq
      have ht : t.data = pyStripChars (stripTags s.data) :=
        congrArg String.data (Value.vStr.inj heq).symm
      intro htag
      rw [ht] at htag
      obtain ⟨p, q, hdec⟩ := pyStripChars_decomp (stripTags s.data)
      exact stripTags_safe s.data (hdec ▸ hasNlFreeTag_of_append p _ q htag)

/-- Witness for the amended claim C9: a non-string passes through; a
whitespace-only-after-stripping value becomes `None`; a cleaned value has no
newline-free tag left. -/
theorem claim_C9_witness :
    clean_html_value (.vInt 7) = .vInt 7
    ∧ clean_html_value (.vStr "<b> </b>") = .vNull
    ∧ ¬ hasNlFreeTag ("xy".data) := by
  refine ⟨claim_C9_amended.1 (.vInt 7) (fun s h => by cases h), ?_, ?_⟩
  · exact claim_C9_amended.2.2.1 "<b> </b>" (by decide)
  · exact claim_C9_amended.2.2.2 "x<i>y</i>" "xy" (by rfl)

/-! ## Claim C4: compound id derivation -/

theorem empty_append_str (s : String) : "" ++ s = s := by
  apply String.ext
  rw [String.data_append]
  rfl

theorem strJoin_filter_hasKey (row : Row) (cols : List String) :
    strJoin ((cols.filter (fun c => rowHasKey row c)).map (fun c => strForId (pyGet row c))) =
      strJoin (cols.map (fun c => strForId (pyGet row c))) := by
  induction cols with
  | nil => rfl
  | cons c cols ih =>
    rw [List.filter_cons]
    by_cases h : rowHasKey row c = true
    · rw [if_pos h]
      simp only [List.map_cons, strJoin]
      rw [ih]
    · rw [if_neg (by simp [h])]
      have hnone : pyGet row c = none := by
        cases hg : pyGet row c
        · rfl
        · rw [rowHasKey, hg] at h; simp at h
      simp only [List.map_cons, strJoin]
      rw [ih, hnone]
      show strJoin (cols.map _) = "" ++ strJoin (cols.map _)
      rw [empty_append_str]

theorem strJoin_gcValues_eq_spec (cfg : TableConfig) (row : Row) :
    strJoin (gcValues cfg row) = specKeyConcat cfg row := by
  unfold gcValues existingKeyCols specKeyConcat
  exact strJoin_filter_hasKey row (gcKeyCols cfg)

theorem nodup_keys_filter (row : Row) (p : String × Value → Bool)
    (hnd : (rowKeys row).Nodup) : (rowKeys (row.filter p)).Nodup :=
  List.Nodup.sublist (List.Sublist.map Prod.fst (List.filter_sublist row)) hnd

theorem generate_compound_id_keyed (cfg : TableConfig) (row : Row)
    (hne : existingKeyCols cfg row ≠ []) (hnd : (rowKeys row).Nodup) :
    generate_compound_id cfg row =
      ("server", pyGetD row "server" (.vStr "")) ::
      ("id", .vStr (md5Hex (specKeyConcat cfg row))) ::
      row.filter (fun kv => kv.1 != "server" && kv.1 != "id") := by
  unfold generate_compound_id
  cases hex : existingKeyCols cfg row with
  | nil => exact absurd hex hne
  | cons c cs =>
    rw [strJoin_gcValues_eq_spec]
    rw [pyExtend_append_of_disjoint _ _ ?_ (nodup_keys_filter row _ hnd)]
    · rfl
    · intro k hk
      rw [rowKeys] at hk
      obtain ⟨kv, hkvmem, hkv⟩ := List.mem_map.mp hk
      have hp := (List.mem_filter.mp hkvmem).2
      rw [hkv] at hp
      simp only [Bool.and_eq_true, bne_iff_ne, ne_eq] at hp
      show (if "server" = k then some (pyGetD row "server" (Value.vStr ""))
        else if "id" = k then some (Value.vStr (md5Hex (specKeyConcat cfg row))) else none) = none
      rw [if_neg (fun hh : "server" = k => hp.1 hh.symm),
        if_neg (fun hh : "id" = k => hp.2 hh.symm)]

theorem generate_compound_id_keyless (cfg : TableConfig) (row : Row)
    (hex : existingKeyCols cfg row = []) :
    generate_compound_id cfg row = pyExtend [("id", Value.vStr "")] row := by
  unfold generate_compound_id
  rw [hex]

/-- Counterexample to claim C4 as stated: an emitted row with no primary or
secondary key column present whose `id` is not the explicit empty value —
the raw record's own `id` column overwrites the empty marker, because the
keyless branch builds `{"id": "", **row}` and the dict-splat wins. -/
theorem claim_C4_counterexample :
    transform "srv"
      { columns := [], primary_keys := ["name"], secondary_keys := [], keys := [],
        list_columns := [], list_of_dicts_columns := [], no_ns_columns := [] }
      [[("id", Value.vStr "x")]] =
      [[("id", Value.vStr "x"), ("server", Value.vStr "srv")]]
    ∧ existingKeyCols
      { columns := [], primary_keys := ["name"], secondary_keys := [], keys := [],
        list_columns := [], list_of_dicts_columns := [], no_ns_columns := [] }
      [("id", Value.vStr "x"), ("server", Value.vStr "srv")] = [] :=
  ⟨rfl, rfl⟩

/-- Claim C4, amended: for every row with at least one primary or secondary
key column present, `_generate_compound_id` sets `id` to the lowercase hex
MD5 of the concatenation of the (already tenant-namespaced) string values of
all primary-key columns followed by all secondary-key columns, in that fixed
order, absent values contributing the empty string (`specKeyConcat`); for a
row with no key column present, `id` is the explicit empty value unless the
row itself already carries an `id` column, whose value then survives. -/
theorem claim_C4_amended (cfg : TableConfig) (row : Row) (hnd : (rowKeys row).Nodup) :
    (existingKeyCols cfg row ≠ [] →
      generate_compound_id cfg row =
        ("server", pyGetD row "server" (.vStr "")) ::
        ("id", .vStr (md5Hex (specKeyConcat cfg row))) ::
        row.filter (fun kv => kv.1 != "server" && kv.1 != "id"))
    ∧ (existingKeyCols cfg row = [] →
      pyGet (generate_compound_id cfg row) "id" = some (pyGetD row "id" (.vStr ""))) := by
  constructor
  · intro hne
    exact generate_compound_id_keyed cfg row hne hnd
  · intro hex
    rw [generate_compound_id_keyless cfg row hex, pyGet_pyExtend, pyGetLast_eq_pyGet _ _ hnd]
    cases hg : pyGet row "id" with
    | some v => simp [pyGetD, hg]
    | none => simp [pyGetD, hg, pyGet_cons]

/-- Witness for the amended claim C4: a keyed row gets the namespaced-MD5
id in the second column, and a keyless row without its own `id` column gets
the explicit empty id. -/
theorem claim_C4_witness :
    generate_compound_id
      { columns := [], primary_keys := ["name"], secondary_keys := ["time"], keys := [],
        list_columns := [], list_of_dicts_columns := [], no_ns_columns := [] }
      [("server", Value.vStr "acme"), ("name", Value.vStr "acme_123"), ("title", Value.vStr "t")] =
      ("server", Value.vStr "acme") ::
      ("id", Value.vStr (md5Hex (specKeyConcat
        { columns := [], primary_keys := ["name"], secondary_keys := ["time"], keys := [],
          list_columns := [], list_of_dicts_columns := [], no_ns_columns := [] }
        [("server", Value.vStr "acme"), ("name", Value.vStr "acme_123"), ("title", Value.vStr "t")]))) ::
      [("name", Value.vStr "acme_123"), ("title", Value.vStr "t")]
    ∧ pyGet (generate_compound_id
      { columns := [], primary_keys := ["name"], secondary_keys := [], keys := [],
        list_columns := [], list_of_dicts_columns := [], no_ns_columns := [] }
      [("server", Value.vStr "acme"), ("title", Value.vStr "t")]) "id" = some (Value.vStr "") := by
  constructor
  · exact ((claim_C4_amended _ _ (by decide)).1 (by decide)).trans (by rfl)
  · exact ((claim_C4_amended _ _ (by decide)).2 (by decide)).trans (by rfl)

/-! ## Key-uniqueness invariants of the pipeline -/

theorem nodup_foldl_of_step {α : Type} (l : List α) (step : Row → α → Row)
    (hstep : ∀ acc x, (rowKeys acc).Nodup → (rowKeys (step acc x)).Nodup) :
    ∀ acc, (rowKeys acc).Nodup → (rowKeys (l.foldl step acc)).Nodup := by
  induction l with
  | nil => exact fun acc h => h
  | cons x xs ih => exact fun acc h => ih _ (hstep acc x h)

theorem nodup_normalize (row : Row) : (rowKeys (normalize_nested_json row)).Nodup := by
  unfold normalize_nested_json
  refine nodup_foldl_of_step row _ ?_ [] (by simp [rowKeys])
  intro acc kv h
  obtain ⟨k, v⟩ := kv
  cases v with
  | vDict fields =>
    exact nodup_foldl_of_step fields _ (fun acc2 fkv h2 => nodup_pySet _ _ _ h2) acc h
  | vNull => exact nodup_pySet _ _ _ h
  | vBool b => exact nodup_pySet _ _ _ h
  | vInt n => exact nodup_pySet _ _ _ h
  | vStr s => exact nodup_pySet _ _ _ h
  | vList xs => exact nodup_pySet _ _ _ h

theorem nodup_filter_columns (cfg : TableConfig) (row : Row)
    (h : (rowKeys row).Nodup) : (rowKeys (filter_columns cfg row)).Nodup := by
  unfold filter_columns
  by_cases hc : cfg.columns.isEmpty
  · rw [if_pos hc]; exact h
  · rw [if_neg hc]; exact nodup_keys_filter row _ h

theorem nodup_hlcRec (cols : List String) :
    ∀ row out, (rowKeys row).Nodup → out ∈ handle_list_columns_recursive cols row →
      (rowKeys out).Nodup := by
  induction cols with
  | nil =>
    intro row out h hout
    simp only [handle_list_columns_recursive, List.mem_singleton] at hout
    exact hout ▸ h
  | cons c rest ih =>
    intro row out h hout
    simp only [handle_list_columns_recursive] at hout
    cases hv : pyGetD row c (.vList []) with
    | vList xs =>
      cases xs with
      | nil =>
        rw [hv] at hout
        simp only [List.mem_singleton] at hout
        exact hout ▸ h
      | cons v vs =>
        rw [hv] at hout
        simp only [hlcRec_branch, List.mem_flatMap] at hout
        obtain ⟨value, _, hmem⟩ := hout
        exact ih _ _ (nodup_pySet _ _ _ h) hmem
    | vNull => rw [hv] at hout; simp only [List.mem_singleton] at hout; exact hout ▸ h
    | vBool b => rw [hv] at hout; simp only [List.mem_singleton] at hout; exact hout ▸ h
    | vInt n => rw [hv] at hout; simp only [List.mem_singleton] at hout; exact hout ▸ h
    | vStr s => rw [hv] at hout; simp only [List.mem_singleton] at hout; exact hout ▸ h
    | vDict fs => rw [hv] at hout; simp only [List.mem_singleton] at hout; exact hout ▸ h

theorem nodup_handle_list_columns (cfg : TableConfig) (row : Row) (out : Row)
    (h : (rowKeys row).Nodup) (hout : out ∈ handle_list_columns cfg row) :
    (rowKeys out).Nodup := by
  cases hfil : (cfg.list_columns.map normKey).filter (fun c => rowHasKey row c) with
  | nil =>
    simp only [handle_list_columns, hfil, List.mem_singleton] at hout
    exact hout ▸ h
  | cons c cs =>
    simp only [handle_list_columns, hfil] at hout
    cases hv : pyGetD row c (.vList []) with
    | vList xs =>
      cases xs with
      | nil =>
        rw [hv] at hout
        simp only [List.mem_singleton] at hout
        exact hout ▸ h
      | cons v vs =>
        rw [hv] at hout
        simp only [List.mem_flatMap] at hout
        obtain ⟨value, _, hmem⟩ := hout
        by_cases hre : cs.isEmpty
        · rw [if_pos hre] at hmem
          simp only [List.mem_singleton] at hmem
          exact hmem ▸ nodup_pySet _ _ _ h
        · rw [if_neg hre] at hmem
          exact nodup_hlcRec _ _ _ (nodup_pySet _ _ _ h) hmem
    | vNull => rw [hv] at hout; simp only [List.mem_singleton] at hout; exact hout ▸ h
    | vBool b => rw [hv] at hout; simp only [List.mem_singleton] at hout; exact hout ▸ h
    | vInt n => rw [hv] at hout; simp only [List.mem_singleton] at hout; exact hout ▸ h
    | vStr s => rw [hv] at hout; simp only [List.mem_singleton] at hout; exact hout ▸ h
    | vDict fs => rw [hv] at hout; simp only [List.mem_singleton] at hout; exact hout ▸ h

theorem nodup_expandDictItem (c : String) (row : Row) (item : Value)
    (h : (rowKeys row).Nodup) : (rowKeys (expandDictItem c row item)).Nodup := by
  unfold expandDictItem
  have hfil : (rowKeys (row.filter (fun kv => kv.1 != c))).Nodup := nodup_keys_filter row _ h
  cases item with
  | vDict fs =>
    exact nodup_foldl_of_step fs _ (fun acc2 fkv h2 => nodup_pySet _ _ _ h2) _ hfil
  | vNull => exact hfil
  | vBool b => exact hfil
  | vInt n => exact hfil
  | vStr s => exact hfil
  | vList xs => exact hfil

theorem hlodRec_branch (rest : List String) (r : Row) :
    (if rest.isEmpty then [r] else handle_list_of_dicts_columns_recursive rest r) =
      handle_list_of_dicts_columns_recursive rest r := by
  cases rest <;> rfl

theorem nodup_hlodRec (cols : List String) :
    ∀ row out, (rowKeys row).Nodup → out ∈ handle_list_of_dicts_columns_recursive cols row →
      (rowKeys out).Nodup := by
  induction cols with
  | nil =>
    intro row out h hout
    simp only [handle_list_of_dicts_columns_recursive, List.mem_singleton] at hout
    exact hout ▸ h
  | cons c rest ih =>
    intro row out h hout
    simp only [handle_list_of_dicts_columns_recursive] at hout
    cases hv : pyGetD row c (.vList []) with
    | vList xs =>
      cases xs with
      | nil =>
        rw [hv] at hout
        simp only [List.mem_singleton] at hout
        exact hout ▸ nodup_keys_filter row _ h
      | cons v vs =>
        rw [hv] at hout
        simp only [hlodRec_branch, List.mem_flatMap] at hout
        obtain ⟨item, _, hmem⟩ := hout
        exact ih _ _ (nodup_expandDictItem _ _ _ h) hmem
    | vNull =>
      rw [hv] at hout; simp only [List.mem_singleton] at hout
      exact hout ▸ nodup_keys_filter row _ h
    | vBool b =>
      rw [hv] at hout; simp only [List.mem_singleton] at hout
      exact hout ▸ nodup_keys_filter row _ h
    | vInt n =>
      rw [hv] at hout; simp only [List.mem_singleton] at hout
      exact hout ▸ nodup_keys_filter row _ h
    | vStr s =>
      rw [hv] at hout; simp only [List.mem_singleton] at hout
      exact hout ▸ nodup_keys_filter row _ h
    | vDict fs =>
      rw [hv] at hout; simp only [List.mem_singleton] at hout
      exact hout ▸ nodup_keys_filter row _ h

theorem nodup_handle_list_of_dicts (cfg : TableConfig) (row : Row) (out : Row)
    (h : (rowKeys row).Nodup) (hout : out ∈ handle_list_of_dicts_columns cfg row) :
    (rowKeys out).Nodup := by
  cases hfil : (cfg.list_of_dicts_columns.map normKey).filter (fun c => rowHasKey row c) with
  | nil =>
    simp only [handle_list_of_dicts_columns, hfil, List.mem_singleton] at hout
    exact hout ▸ h
  | cons c cs =>
    simp only [handle_list_of_dicts_columns, hfil] at hout
    cases hv : pyGetD row c (.vList []) with
    | vList xs =>
      cases xs with
      | nil =>
        rw [hv] at hout
        simp only [List.mem_singleton] at hout
        exact hout ▸ nodup_keys_filter row _ h
      | cons v vs =>
        rw [hv] at hout
        simp only [List.mem_flatMap] at hout
        obtain ⟨item, _, hmem⟩ := hout
        by_cases hre : cs.isEmpty
        · rw [if_pos hre] at hmem
          simp only [List.mem_singleton] at hmem
          exact hmem ▸ nodup_expandDictItem _ _ _ h
        · rw [if_neg hre] at hmem
          exact nodup_hlodRec _ _ _ (nodup_expandDictItem _ _ _ h) hmem
    | vNull =>
      rw [hv] at hout; simp only [List.mem_singleton] at hout
      exact hout ▸ nodup_keys_filter row _ h
    | vBool b =>
      rw [hv] at hout; simp only [List.mem_singleton] at hout
      exact hout ▸ nodup_keys_filter row _ h
    | vInt n =>
      rw [hv] at hout; simp only [List.mem_singleton] at hout
      exact hout ▸ nodup_keys_filter row _ h
    | vStr s =>
      rw [hv] at hout; simp only [List.mem_singleton] at hout
      exact hout ▸ nodup_keys_filter row _ h
    | vDict fs =>
      rw [hv] at hout; simp only [List.mem_singleton] at hout
      exact hout ▸ nodup_keys_filter row _ h

theorem rowKeys_clean_html (row : Row) : rowKeys (clean_html row) = rowKeys row :=
  rowKeys_mapVal (fun _ v => clean_html_value v) row

theorem nodup_clean_html (row : Row) (h : (rowKeys row).Nodup) :
    (rowKeys (clean_html row)).Nodup := (rowKeys_clean_html row).symm ▸ h

theorem rowKeys_ns_key_columns (server : String) (cfg : TableConfig) (row : Row) :
    rowKeys (ns_key_columns server cfg row) = rowKeys row :=
  rowKeys_mapVal (nsValue server cfg) row

theorem nodup_ns_key_columns (server : String) (cfg : TableConfig) (row : Row)
    (h : (rowKeys row).Nodup) : (rowKeys (ns_key_columns server cfg row)).Nodup :=
  (rowKeys_ns_key_columns server cfg row).symm ▸ h

theorem nodup_add_server (server : String) (row : Row) :
    (rowKeys (add_server_column server row)).Nodup :=
  nodup_pyExtend _ row (by simp [rowKeys])

theorem transform_mem (server : String) (cfg : TableConfig) (data : List Row) (out : Row)
    (hout : out ∈ transform server cfg data) :
    ∃ r2, (rowKeys r2).Nodup ∧ out = finalizeRow server cfg r2 := by
  unfold transform at hout
  rw [List.mem_flatMap] at hout
  obtain ⟨raw, _, hout⟩ := hout
  rw [List.mem_flatMap] at hout
  obtain ⟨e, he, hout⟩ := hout
  rw [List.mem_map] at hout
  obtain ⟨r2, hr2, hfin⟩ := hout
  have hnd0 : (rowKeys (filter_columns cfg (normalize_nested_json raw))).Nodup :=
    nodup_filter_columns cfg _ (nodup_normalize raw)
  have hnd1 := nodup_handle_list_columns cfg _ e hnd0 he
  have hnd2 := nodup_handle_list_of_dicts cfg e r2 hnd1 hr2
  exact ⟨r2, hnd2, hfin.symm⟩

/-! ## Claim C1: column ordering of emitted rows -/

theorem mid_head (server : String) (cfg : TableConfig) (r : Row) :
    ∃ sv rest, ns_key_columns server cfg (add_server_column server (clean_html r)) =
      ("server", sv) :: rest := by
  obtain ⟨v2, rest1, hshape⟩ :=
    pyExtend_headOne (clean_html r) "server" (Value.vStr server) []
  refine ⟨nsValue server cfg "server" v2,
    rest1.map (fun kv => (kv.1, nsValue server cfg kv.1 kv.2)), ?_⟩
  unfold ns_key_columns add_server_column
  rw [show pyExtend [("server", Value.vStr server)] (clean_html r) =
    ("server", v2) :: rest1 from hshape]
  rfl

/-- Counterexample to claim C1 as stated: a record in which no primary or
secondary key column is present is emitted with `id` as its first column and
`server` only second — the keyless branch of `_generate_compound_id` builds
`{"id": "", **row}`, which puts `id` before `server`. -/
theorem claim_C1_counterexample :
    transform "srv"
      { columns := [], primary_keys := ["name"], secondary_keys := [], keys := [],
        list_columns := [], list_of_dicts_columns := [], no_ns_columns := [] }
      [[("title", Value.vStr "x")]] =
      [[("id", Value.vStr ""), ("server", Value.vStr "srv"), ("title", Value.vStr "x")]]
    ∧ rowKeys [(("id" : String), Value.vStr ""), ("server", Value.vStr "srv"),
        ("title", Value.vStr "x")] = ["id", "server", "title"] :=
  ⟨rfl, rfl⟩

/-- Claim C1, amended: provided `server` and `id` are not themselves
key columns of the schema, every row emitted by `transform` in which at
least one primary or secondary key column is present has `server` first,
`id` (the derived hash) second, and the remaining columns in first-seen
order; a row in which no key column is present instead begins with `id`
followed by `server`. -/
theorem claim_C1_amended (server : String) (cfg : TableConfig) (data : List Row)
    (hs : "server" ∉ gcKeyCols cfg) (hi : "id" ∉ gcKeyCols cfg) :
    ∀ out ∈ transform server cfg data,
      ((∃ c ∈ gcKeyCols cfg, c ∈ rowKeys out) →
        ∃ mid, out = ("server", pyGetD mid "server" (.vStr "")) ::
          ("id", .vStr (md5Hex (specKeyConcat cfg mid))) ::
          mid.filter (fun kv => kv.1 != "server" && kv.1 != "id"))
      ∧ ((∀ c ∈ gcKeyCols cfg, c ∉ rowKeys out) →
        ∃ iv sv rest, out = ("id", iv) :: ("server", sv) :: rest) := by
  intro out hout
  obtain ⟨r2, hnd2, rfl⟩ := transform_mem server cfg data out hout
  have hndmid : (rowKeys (ns_key_columns server cfg
      (add_server_column server (clean_html r2)))).Nodup :=
    nodup_ns_key_columns _ _ _ (nodup_add_server server (clean_html r2))
  have hfin : finalizeRow server cfg r2 =
      generate_compound_id cfg
        (ns_key_columns server cfg (add_server_column server (clean_html r2))) := rfl
  rw [hfin]
  set mid := ns_key_columns server cfg (add_server_column server (clean_html r2)) with hmid
  cases hex : existingKeyCols cfg mid with
  | cons c0 cs0 =>
    have hkeyed := generate_compound_id_keyed cfg mid
      (by rw [hex]; exact List.cons_ne_nil _ _) hndmid
    constructor
    · intro _
      exact ⟨mid, hkeyed⟩
    · intro hnone
      exfalso
      have hc0mem : c0 ∈ existingKeyCols cfg mid := hex ▸ List.mem_cons_self c0 cs0
      have hc0 := List.mem_filter.mp hc0mem
      have hc0ne1 : c0 ≠ "server" := fun hh => hs (hh ▸ hc0.1)
      have hc0ne2 : c0 ≠ "id" := fun hh => hi (hh ▸ hc0.1)
      apply hnone c0 hc0.1
      rw [hkeyed]
      simp only [rowKeys, List.map_cons, List.mem_cons]
      right; right
      have hc0mid : c0 ∈ rowKeys mid := (pyGet_isSome_iff mid c0).mp hc0.2
      obtain ⟨kv, hkvm, hkv1⟩ := List.mem_map.mp hc0mid
      exact List.mem_map.mpr ⟨kv, List.mem_filter.mpr ⟨hkvm, by
        simp only [Bool.and_eq_true, bne_iff_ne, ne_eq, hkv1]
        exact ⟨hc0ne1, hc0ne2⟩⟩, hkv1⟩
  | nil =>
    have hkeyless := generate_compound_id_keyless cfg mid hex
    have hall : ∀ c ∈ gcKeyCols cfg, pyGet mid c = none := by
      intro c hc
      have hfalse : ¬ (rowHasKey mid c = true) := by
        intro htrue
        have : c ∈ existingKeyCols cfg mid := List.mem_filter.mpr ⟨hc, htrue⟩
        rw [hex] at this
        exact (List.not_mem_nil c) this
      cases hg : pyGet mid c with
      | none => rfl
      | some v => exact absurd (by rw [rowHasKey, hg]; rfl) hfalse
    constructor
    · rintro ⟨c, hc, hcout⟩
      exfalso
      have hcne : c ≠ "id" := fun hh => hi (hh ▸ hc)
      have hnone2 : pyGet (generate_compound_id cfg mid) c = none := by
        rw [hkeyless, pyGet_pyExtend, pyGetLast_eq_pyGet _ _ hndmid, hall c hc]
        show pyGet [("id", Value.vStr "")] c = none
        simp only [pyGet]
        rw [if_neg (fun hh : "id" = c => hcne hh.symm)]
      exact (pyGet_eq_none_iff _ c).mp hnone2 hcout
    · intro _
      obtain ⟨sv0, rest0, hmidshape⟩ := mid_head server cfg r2
      rw [← hmid] at hmidshape
      rw [hkeyless, hmidshape]
      have hstep : pyExtend [("id", Value.vStr "")] (("server", sv0) :: rest0) =
          pyExtend [("id", Value.vStr ""), ("server", sv0)] rest0 := rfl
      rw [hstep]
      obtain ⟨v2, v3, rest1, hshape⟩ :=
        pyExtend_headTwo rest0 "id" "server" (by decide) (Value.vStr "") sv0 []
      exact ⟨v2, v3, rest1, hshape⟩

/-- Witness for the amended claim C1: a keyed record gets `server` first and
`id` second; a keyless record gets `id` first and `server` second. -/
theorem claim_C1_witness :
    (∃ mid,
      [("server", Value.vStr "srv"), ("id", Value.vStr (md5Hex "srv_123")),
       ("name", Value.vStr "srv_123")] =
        ("server", pyGetD mid "server" (.vStr "")) ::
        ("id", .vStr (md5Hex (specKeyConcat
          { columns := [], primary_keys := ["name"], secondary_keys := [], keys := [],
            list_columns := [], list_of_dicts_columns := [], no_ns_columns := [] } mid))) ::
        mid.filter (fun kv => kv.1 != "server" && kv.1 != "id"))
    ∧ (∃ iv sv rest,
      [("id", Value.vStr ""), ("server", Value.vStr "srv"), ("title", Value.vStr "x")] =
        ("id", iv) :: ("server", sv) :: rest) := by
  constructor
  · refine (claim_C1_amended "srv"
      { columns := [], primary_keys := ["name"], secondary_keys := [], keys := [],
        list_columns := [], list_of_dicts_columns := [], no_ns_columns := [] }
      [[("name", Value.vStr "123")]] (by decide) (by decide)
      [("server", Value.vStr "srv"), ("id", Value.vStr (md5Hex "srv_123")),
       ("name", Value.vStr "srv_123")] ?_).1 ⟨"name", by decide, by decide⟩
    rw [show transform "srv"
      { columns := [], primary_keys := ["name"], secondary_keys := [], keys := [],
        list_columns := [], list_of_dicts_columns := [], no_ns_columns := [] }
      [[("name", Value.vStr "123")]] =
      [[("server", Value.vStr "srv"), ("id", Value.vStr (md5Hex "srv_123")),
        ("name", Value.vStr "srv_123")]] from rfl]
    exact List.mem_singleton_self _
  · refine (claim_C1_amended "srv"
      { columns := [], primary_keys := ["name"], secondary_keys := [], keys := [],
        list_columns := [], list_of_dicts_columns := [], no_ns_columns := [] }
      [[("title", Value.vStr "x")]] (by decide) (by decide)
      [("id", Value.vStr ""), ("server", Value.vStr "srv"), ("title", Value.vStr "x")]
      ?_).2 (by decide)
    rw [show transform "srv"
      { columns := [], primary_keys := ["name"], secondary_keys := [], keys := [],
        list_columns := [], list_of_dicts_columns := [], no_ns_columns := [] }
      [[("title", Value.vStr "x")]] =
      [[("id", Value.vStr ""), ("server", Value.vStr "srv"), ("title", Value.vStr "x")]]
      from rfl]
    exact List.mem_singleton_self _

/-! ## Claim C2: invalid parent identifiers never drive child extraction -/

theorem append_ne_empty_left (s t : String) (h : s ≠ "") : s ++ t ≠ "" := by
  intro heq
  have hd := congrArg String.data heq
  rw [String.data_append] at hd
  exact h (String.ext (List.append_eq_nil.mp hd).1)

theorem natStrGo_succ_ne_nil (fuel n : Nat) : natStrGo (fuel + 1) n ≠ [] := by
  simp only [natStrGo]
  split
  · simp
  · simp

theorem natStr_ne_empty (n : Nat) : natStr n ≠ "" := by
  intro h
  exact natStrGo_succ_ne_nil n n (congrArg String.data h)

theorem pyStr_truthy_ne_empty (v : Value) (h : pyTruthy v = true) : pyStr v ≠ "" := by
  cases v with
  | vNull => simp [pyTruthy] at h
  | vBool b =>
    cases b with
    | true => show pyRepr (.vBool true) ≠ ""; decide
    | false => simp [pyTruthy] at h
  | vInt n =>
    show pyRepr (.vInt n) ≠ ""
    rw [pyRepr]
    split
    · exact append_ne_empty_left _ _ (by decide)
    · exact natStr_ne_empty _
  | vStr s =>
    simp only [pyTruthy, bne_iff_ne, ne_eq] at h
    exact h
  | vList xs =>
    show pyRepr (.vList xs) ≠ ""
    rw [pyRepr]
    exact append_ne_empty_left _ _ (append_ne_empty_left "[" _ (by decide))
  | vDict fs =>
    show pyRepr (.vDict fs) ≠ ""
    rw [pyRepr]
    exact append_ne_empty_left _ _ (append_ne_empty_left "\x7b" _ (by decide))

theorem str_append_empty (s : String) : s ++ "" = s :=
  String.ext (by rw [String.data_append]; exact List.append_nil _)

theorem mem_rowKeys_pyExtend (acc row : Row) (c : String) :
    c ∈ rowKeys (pyExtend acc row) ↔ c ∈ rowKeys acc ∨ c ∈ rowKeys row := by
  have h1 : pyGet (pyExtend acc row) c = none ↔
      (pyGetLast row c = none ∧ pyGet acc c = none) := by
    rw [pyGet_pyExtend]
    cases hl : pyGetLast row c <;> simp
  have h2 : pyGetLast row c = none ↔ c ∉ rowKeys row := by
    rw [pyGetLast, pyGet_eq_none_iff]
    unfold rowKeys
    rw [List.map_reverse, List.mem_reverse]
  constructor
  · intro hmem
    by_contra hno
    push_neg at hno
    have : pyGet (pyExtend acc row) c = none :=
      h1.mpr ⟨h2.mpr hno.2, (pyGet_eq_none_iff _ _).mpr hno.1⟩
    exact (pyGet_eq_none_iff _ _).mp this hmem
  · intro hor
    by_contra hno
    have := h1.mp ((pyGet_eq_none_iff _ _).mpr hno)
    rcases hor with h | h
    · exact (pyGet_eq_none_iff _ _).mp this.2 h
    · exact h2.mp this.1 h

theorem pyGet_filter_keyPred (row : Row) (c : String) (f : String → Bool) :
    pyGet (row.filter (fun kv => f kv.1)) c = if f c then pyGet row c else none := by
  induction row with
  | nil => split <;> rfl
  | cons kv rest ih =>
    rw [List.filter_cons]
    by_cases hk : kv.1 = c
    · subst hk
      by_cases hf : f kv.1
      · rw [if_pos (by simp [hf]), pyGet_cons, if_pos rfl, if_pos hf, pyGet_cons, if_pos rfl]
      · rw [if_neg (by simp [hf]), ih, if_neg hf, if_neg hf]
    · by_cases hf : f kv.1
      · rw [if_pos (by simp [hf]), pyGet_cons, if_neg hk, ih, pyGet_cons, if_neg hk]
      · rw [if_neg (by simp [hf]), ih, pyGet_cons, if_neg hk]

theorem flatMap_singleton {α β : Type} (l : List α) (g : α → β) :
    (l.flatMap fun x => [g x]) = l.map g := by
  induction l with
  | nil => rfl
  | cons x xs ih => simp [ih]

theorem transform_no_lists (server : String) (cfg : TableConfig) (data : List Row)
    (h1 : cfg.list_columns = []) (h2 : cfg.list_of_dicts_columns = []) :
    transform server cfg data =
      data.map (fun row =>
        finalizeRow server cfg (filter_columns cfg (normalize_nested_json row))) := by
  have hrow : ∀ row : Row, handle_list_columns cfg row = [row] := by
    intro row
    unfold handle_list_columns
    rw [h1]
    rfl
  have hrow2 : ∀ row : Row, handle_list_of_dicts_columns cfg row = [row] := by
    intro row
    unfold handle_list_of_dicts_columns
    rw [h2]
    rfl
  unfold transform
  have hinner : ∀ row : Row,
      (handle_list_columns cfg (filter_columns cfg (normalize_nested_json row))).flatMap
        (fun e => (handle_list_of_dicts_columns cfg e).map (finalizeRow server cfg)) =
      [finalizeRow server cfg (filter_columns cfg (normalize_nested_json row))] := by
    intro row
    rw [hrow, List.flatMap_cons, List.flatMap_nil, hrow2]
    rfl
  calc data.flatMap (fun row =>
        (handle_list_columns cfg (filter_columns cfg (normalize_nested_json row))).flatMap
          (fun e => (handle_list_of_dicts_columns cfg e).map (finalizeRow server cfg)))
      = data.flatMap (fun row =>
          [finalizeRow server cfg (filter_columns cfg (normalize_nested_json row))]) := by
        induction data with
        | nil => rfl
        | cons x xs ih => rw [List.flatMap_cons, List.flatMap_cons, hinner, ih]
    _ = _ := flatMap_singleton data _

theorem pyGet_pair_cons (a : String) (v : Value) (rest : Row) (c : String) :
    pyGet ((a, v) :: rest) c = if a = c then some v else pyGet rest c := rfl

theorem contains_iff_mem (l : List String) (a : String) : l.contains a = true ↔ a ∈ l :=
  List.elem_iff

theorem not_mem_validParentIds_of_mem_invalid (cands invalid : List String) (x : String)
    (h : x ∈ invalid) : x ∉ validParentIds cands invalid := by
  intro hmem
  have hpred := (List.mem_filter.mp hmem).2
  rw [Bool.not_eq_true'] at hpred
  rw [(contains_iff_mem invalid x).mpr h] at hpred
  cases hpred

theorem rowKeys_filter_columns_subset (cfg : TableConfig) (row : Row)
    (hc : cfg.columns.isEmpty = false) :
    ∀ k ∈ rowKeys (filter_columns cfg row), k ∈ cfg.columns.map normKey := by
  unfold filter_columns
  rw [if_neg (by simp [hc])]
  intro k hk
  obtain ⟨kv, hkvm, hkv⟩ := List.mem_map.mp hk
  have hp := (List.mem_filter.mp hkvm).2
  rw [hkv] at hp
  exact List.elem_iff.mp hp

/-- Claim C2: over the `activities` schema, every raw record is emitted as
exactly one output row (malformed records included), and the identifier of
every emitted row whose primary-key column `name` is absent, `None` or empty
never appears in the valid parent-identifier list passed to child
extraction — the list formed as the tracked candidate identifiers minus the
tracked invalid set. -/
theorem claim_C2 (server : String) (data : List Row) :
    (transform server activitiesConfig data).length = data.length
    ∧ ∀ r ∈ transform server activitiesConfig data,
      (pyGet r "name" = none ∨ pyGet r "name" = some .vNull ∨
        pyGet r "name" = some (.vStr "")) →
      idString r ∉ validParentIds
        (trackedParentIds (transform server activitiesConfig data) "name")
        (trackedInvalidActivities activitiesConfig
          (transform server activitiesConfig data)) := by
  have htr := transform_no_lists server activitiesConfig data rfl rfl
  constructor
  · rw [htr, List.length_map]
  · intro r hr hyp
    obtain ⟨raw, hraw, hfin⟩ : ∃ raw ∈ data, r = finalizeRow server activitiesConfig
        (filter_columns activitiesConfig (normalize_nested_json raw)) := by
      rw [htr] at hr
      obtain ⟨raw, hrawmem, heq⟩ := List.mem_map.mp hr
      exact ⟨raw, hrawmem, heq.symm⟩
    set e := filter_columns activitiesConfig (normalize_nested_json raw) with he
    set mid := ns_key_columns server activitiesConfig
      (add_server_column server (clean_html e)) with hmiddef
    have hfin2 : r = generate_compound_id activitiesConfig mid := hfin
    have hndmid : (rowKeys mid).Nodup :=
      nodup_ns_key_columns _ _ _ (nodup_add_server _ _)
    have hidnot : "id" ∉ rowKeys mid := by
      rw [hmiddef, rowKeys_ns_key_columns]
      intro hmem
      rcases (mem_rowKeys_pyExtend [("server", Value.vStr server)]
        (clean_html e) "id").mp hmem with h | h
      · rw [show rowKeys [("server", Value.vStr server)] = ["server"] from rfl] at h
        simp only [List.mem_singleton] at h
        exact absurd h (by decide)
      · rw [rowKeys_clean_html] at h
        exact absurd
          (rowKeys_filter_columns_subset activitiesConfig (normalize_nested_json raw)
            (by decide) "id" h)
          (by decide)
    cases hname : pyGet mid "name" with
    | none =>
      have hexnil : existingKeyCols activitiesConfig mid = [] := by
        show (gcKeyCols activitiesConfig).filter (fun c => rowHasKey mid c) = []
        rw [show gcKeyCols activitiesConfig = ["name"] from rfl]
        simp [rowHasKey, hname]
      have hkeyless := generate_compound_id_keyless activitiesConfig mid hexnil
      have hidval : pyGet r "id" = some (Value.vStr "") := by
        rw [hfin2, hkeyless, pyGet_pyExtend, pyGetLast_eq_pyGet _ _ hndmid,
          (pyGet_eq_none_iff mid "id").mpr hidnot]
        show pyGet [("id", Value.vStr "")] "id" = some (Value.vStr "")
        simp [pyGet]
      have hidstr : idString r = "" := by rw [idString, hidval]; rfl
      rw [hidstr]
      intro hmem
      have hcand : "" ∈ trackedParentIds (transform server activitiesConfig data) "name" :=
        (List.mem_filter.mp hmem).1
      obtain ⟨r', _, hfr⟩ := List.mem_filterMap.mp hcand
      cases hg : pyGet r' "name" with
      | none =>
        rw [hg] at hfr
        exact absurd hfr (by decide)
      | some v =>
        rw [hg] at hfr
        have hfr2 : (if pyTruthy v then some (pyStr v) else none) = some "" := hfr
        by_cases ht : pyTruthy v = true
        · rw [if_pos ht] at hfr2
          exact pyStr_truthy_ne_empty v ht (Option.some.inj hfr2)
        · rw [if_neg ht] at hfr2
          cases hfr2
    | some u =>
      have hexne : existingKeyCols activitiesConfig mid = ["name"] := by
        show (gcKeyCols activitiesConfig).filter (fun c => rowHasKey mid c) = _
        rw [show gcKeyCols activitiesConfig = ["name"] from rfl]
        simp [rowHasKey, hname]
      have hkeyed := generate_compound_id_keyed activitiesConfig mid
        (by rw [hexne]; exact List.cons_ne_nil _ _) hndmid
      have hrname : pyGet r "name" = some u := by
        rw [hfin2, hkeyed, pyGet_pair_cons, if_neg (by decide : ¬ ("server" : String) = "name"),
          pyGet_pair_cons, if_neg (by decide : ¬ ("id" : String) = "name")]
        rw [pyGet_filter_keyPred mid "name" (fun k => k != "server" && k != "id"),
          if_pos (by decide)]
        exact hname
      have hu : u = Value.vNull ∨ u = Value.vStr "" := by
        rcases hyp with h | h | h
        · rw [hrname] at h; cases h
        · exact Or.inl (Option.some.inj (hrname.symm.trans h))
        · exact Or.inr (Option.some.inj (hrname.symm.trans h))
      have hconcat : specKeyConcat activitiesConfig mid = "" := by
        show strJoin ((gcKeyCols activitiesConfig).map
          (fun c => strForId (pyGet mid c))) = ""
        rw [show gcKeyCols activitiesConfig = ["name"] from rfl]
        show strForId (pyGet mid "name") ++ strJoin [] = ""
        rw [hname]
        rcases hu with h | h <;> rw [h] <;> rfl
      have hidval : pyGet r "id" = some (Value.vStr (md5Hex "")) := by
        rw [hfin2, hkeyed, pyGet_pair_cons, if_neg (by decide : ¬ ("server" : String) = "id"),
          pyGet_pair_cons, if_pos rfl, hconcat]
      have hidstr : idString r = md5Hex "" := by rw [idString, hidval]; rfl
      have htru : pyTruthy (Value.vStr (md5Hex "")) = true := by
        simp [pyTruthy, md5Hex_ne_empty]
      have hinv : idString r ∈ trackedInvalidActivities activitiesConfig
          (transform server activitiesConfig data) := by
        refine List.mem_filterMap.mpr ⟨r, hr, ?_⟩
        show (match pyGet r "name" with
          | some v =>
            if isNoneOrEmptyStr v then
              match pyGet r "id" with
              | some iv => if pyTruthy iv then some (pyStr iv) else none
              | none => none
            else none
          | none => none) = some (idString r)
        rw [hrname]
        have hue : isNoneOrEmptyStr u = true := by
          rcases hu with h | h <;> rw [h] <;> rfl
        show (if isNoneOrEmptyStr u then
            match pyGet r "id" with
            | some iv => if pyTruthy iv then some (pyStr iv) else none
            | none => none
          else none) = some (idString r)
        rw [hue, if_pos rfl, hidval]
        show (if pyTruthy (Value.vStr (md5Hex "")) then
            some (pyStr (Value.vStr (md5Hex ""))) else none) = some (idString r)
        rw [htru, if_pos rfl, hidstr]
        rfl
      exact not_mem_validParentIds_of_mem_invalid _ _ _ hinv

/-- Witness for claim C2: of two activities records, one lacks its `name`
primary key; it is still emitted (two rows out of two records), and its
identifier is not in the valid parent-identifier list. -/
theorem claim_C2_witness :
    (transform "acme" activitiesConfig
      [[("name", Value.vStr "123"), ("title", Value.vStr "ok")],
       [("title", Value.vStr "bad")]]).length = 2
    ∧ idString [("id", Value.vStr ""), ("server", Value.vStr "acme"),
        ("title", Value.vStr "bad")] ∉
      validParentIds
        (trackedParentIds (transform "acme" activitiesConfig
          [[("name", Value.vStr "123"), ("title", Value.vStr "ok")],
           [("title", Value.vStr "bad")]]) "name")
        (trackedInvalidActivities activitiesConfig (transform "acme" activitiesConfig
          [[("name", Value.vStr "123"), ("title", Value.vStr "ok")],
           [("title", Value.vStr "bad")]])) := by
  constructor
  · exact (claim_C2 "acme" _).1.trans rfl
  · refine (claim_C2 "acme"
      [[("name", Value.vStr "123"), ("title", Value.vStr "ok")],
       [("title", Value.vStr "bad")]]).2
      [("id", Value.vStr ""), ("server", Value.vStr "acme"), ("title", Value.vStr "bad")]
      ?_ (Or.inl rfl)
    rw [show transform "acme" activitiesConfig
      [[("name", Value.vStr "123"), ("title", Value.vStr "ok")],
       [("title", Value.vStr "bad")]] =
      [[("server", Value.vStr "acme"), ("id", Value.vStr (md5Hex "acme_123")),
        ("name", Value.vStr "acme_123"), ("title", Value.vStr "ok")],
       [("id", Value.vStr ""), ("server", Value.vStr "acme"),
        ("title", Value.vStr "bad")]] from rfl]
    exact List.mem_cons_of_mem _ (List.mem_singleton_self _)

/-! ## Claim C8: id determinism per tenant and tenant separation -/

theorem pyGet_clean_html (row : Row) (c : String) :
    pyGet (clean_html row) c = (pyGet row c).map clean_html_value :=
  pyGet_mapVal (fun _ v => clean_html_value v) row c

theorem pyGet_add_server_ne (s : String) (row : Row) (c : String) (hc : c ≠ "server")
    (hnd : (rowKeys row).Nodup) : pyGet (add_server_column s row) c = pyGet row c := by
  unfold add_server_column
  rw [pyGet_pyExtend, pyGetLast_eq_pyGet _ _ hnd]
  cases hg : pyGet row c with
  | none =>
    show pyGet [("server", Value.vStr s)] c = none
    rw [pyGet_pair_cons, if_neg (fun hh : "server" = c => hc hh.symm)]
    rfl
  | some v => rfl

theorem pyGet_mid_clean (s : String) (cfg : TableConfig) (r : Row) (c : String)
    (hc : c ≠ "server") (hnd : (rowKeys r).Nodup) :
    pyGet (midRow s cfg r) c = (pyGet (clean_html r) c).map (nsValue s cfg c) := by
  have h1 : pyGet (midRow s cfg r) c
      = (pyGet (add_server_column s (clean_html r)) c).map (nsValue s cfg c) :=
    pyGet_mapVal (nsValue s cfg) (add_server_column s (clean_html r)) c
  rw [h1, pyGet_add_server_ne s (clean_html r) c hc (nodup_clean_html r hnd)]

theorem pyGet_mid (s : String) (cfg : TableConfig) (r : Row) (c : String)
    (hc : c ≠ "server") (hnd : (rowKeys r).Nodup) :
    pyGet (midRow s cfg r) c = ((pyGet r c).map clean_html_value).map (nsValue s cfg c) := by
  rw [pyGet_mid_clean s cfg r c hc hnd, pyGet_clean_html]

theorem nodup_midRow (s : String) (cfg : TableConfig) (r : Row) :
    (rowKeys (midRow s cfg r)).Nodup :=
  nodup_ns_key_columns s cfg _ (nodup_add_server s (clean_html r))

theorem finalize_id_keyed_hash (cfg : TableConfig) (s : String) (r : Row)
    (hnd : (rowKeys r).Nodup) (hser : "server" ∉ gcKeyCols cfg)
    (hpres : ∃ c ∈ gcKeyCols cfg, (pyGet r c).isSome = true) :
    pyGet (finalizeRow s cfg r) "id" = some (Value.vStr (md5Hex (hashInputOf s cfg r))) := by
  obtain ⟨c, hc, hcs⟩ := hpres
  have hcne : c ≠ "server" := fun h => hser (by rw [← h]; exact hc)
  have hkeyed : existingKeyCols cfg (midRow s cfg r) ≠ [] := by
    have hhk : rowHasKey (midRow s cfg r) c = true := by
      rw [rowHasKey, pyGet_mid s cfg r c hcne hnd]
      cases hg : pyGet r c with
      | none => rw [hg] at hcs; exact absurd hcs (by decide)
      | some v => rfl
    intro hnil
    have hmem : c ∈ existingKeyCols cfg (midRow s cfg r) := List.mem_filter.mpr ⟨hc, hhk⟩
    rw [hnil] at hmem
    exact absurd hmem (List.not_mem_nil c)
  show pyGet (generate_compound_id cfg (midRow s cfg r)) "id" = _
  rw [generate_compound_id_keyed cfg _ hkeyed (nodup_midRow s cfg r)]
  rw [pyGet_pair_cons, if_neg (by decide : ¬ ("server" : String) = "id"),
      pyGet_pair_cons, if_pos rfl]
  rw [show hashInputOf s cfg r = strJoin (gcValues cfg (midRow s cfg r)) from rfl,
      strJoin_gcValues_eq_spec]

theorem hashInput_agree (cfg : TableConfig) (s : String) (r1 r2 : Row)
    (hnd1 : (rowKeys r1).Nodup) (hnd2 : (rowKeys r2).Nodup)
    (hser : "server" ∉ gcKeyCols cfg)
    (hagree : ∀ c ∈ gcKeyCols cfg, pyGet r1 c = pyGet r2 c) :
    hashInputOf s cfg r1 = hashInputOf s cfg r2 := by
  show strJoin (gcValues cfg (midRow s cfg r1)) = strJoin (gcValues cfg (midRow s cfg r2))
  rw [strJoin_gcValues_eq_spec, strJoin_gcValues_eq_spec]
  unfold specKeyConcat
  congr 1
  apply List.map_congr_left
  intro c hc
  have hcne : c ≠ "server" := fun h => hser (by rw [← h]; exact hc)
  rw [pyGet_mid s cfg r1 c hcne hnd1, pyGet_mid s cfg r2 c hcne hnd2, hagree c hc]

theorem descOfCols_cons_none (cfg : TableConfig) (cRow : Row) (c : String)
    (cols : List String) (hg : pyGet cRow c = none) :
    descOfCols cfg cRow (c :: cols) = descOfCols cfg cRow cols := by
  unfold descOfCols
  simp only [List.filterMap_cons, hg]

theorem descOfCols_cons_some_ns (cfg : TableConfig) (cRow : Row) (c : String)
    (cols : List String) (v : Value) (hg : pyGet cRow c = some v)
    (hcond : (shouldNsCol cfg c && !isNoneOrEmptyStr v) = true) :
    descOfCols cfg cRow (c :: cols) = (true, pyStr v) :: descOfCols cfg cRow cols := by
  unfold descOfCols
  simp only [List.filterMap_cons, hg]
  rw [if_pos hcond]

theorem descOfCols_cons_some_plain (cfg : TableConfig) (cRow : Row) (c : String)
    (cols : List String) (v : Value) (hg : pyGet cRow c = some v)
    (hcond : (shouldNsCol cfg c && !isNoneOrEmptyStr v) = false) :
    descOfCols cfg cRow (c :: cols) = (false, strForId (some v)) :: descOfCols cfg cRow cols := by
  unfold descOfCols
  simp only [List.filterMap_cons, hg]
  rw [if_neg (by simp [hcond])]

theorem hashInput_cols (s : String) (cfg : TableConfig) (r : Row)
    (hnd : (rowKeys r).Nodup) :
    ∀ cols : List String, "server" ∉ cols →
    (strJoin ((cols.filter (fun c => rowHasKey (midRow s cfg r) c)).map
      (fun c => strForId (pyGet (midRow s cfg r) c)))).data
      = descRender s (descOfCols cfg (clean_html r) cols) := by
  intro cols
  induction cols with
  | nil => intro _; rfl
  | cons c cols ih =>
    intro hser
    have hcne : c ≠ "server" := fun h => hser (by rw [← h]; exact List.mem_cons_self c cols)
    have hser2 : "server" ∉ cols := fun h => hser (List.mem_cons_of_mem c h)
    have hmid := pyGet_mid_clean s cfg r c hcne hnd
    simp only [List.filter_cons]
    cases hg : pyGet (clean_html r) c with
    | none =>
      have hmidn : pyGet (midRow s cfg r) c = none := by rw [hmid, hg]; rfl
      rw [if_neg (by show ¬ rowHasKey (midRow s cfg r) c = true; rw [rowHasKey, hmidn]; simp),
        descOfCols_cons_none cfg (clean_html r) c cols hg]
      exact ih hser2
    | some v =>
      have hmids : pyGet (midRow s cfg r) c = some (nsValue s cfg c v) := by
        rw [hmid, hg]; rfl
      rw [if_pos (by show rowHasKey (midRow s cfg r) c = true; rw [rowHasKey, hmids]; rfl)]
      simp only [List.map_cons, strJoin]
      rw [String.data_append, ih hser2, hmids]
      by_cases hcond : (shouldNsCol cfg c && !isNoneOrEmptyStr v) = true
      · rw [descOfCols_cons_some_ns cfg (clean_html r) c cols v hg hcond]
        have hns : nsValue s cfg c v = Value.vStr (s ++ "_" ++ pyStr v) := by
          unfold nsValue; rw [if_pos hcond]
        rw [hns]
        show (s ++ "_" ++ pyStr v).data ++ descRender s (descOfCols cfg (clean_html r) cols)
          = s.data ++ '_' :: ((pyStr v).data ++ descRender s (descOfCols cfg (clean_html r) cols))
        rw [String.data_append, String.data_append,
          show ("_" : String).data = ['_'] from rfl]
        simp [List.append_assoc]
      · have hcf : (shouldNsCol cfg c && !isNoneOrEmptyStr v) = false := by
          cases h : (shouldNsCol cfg c && !isNoneOrEmptyStr v)
          · rfl
          · exact absurd h hcond
        rw [descOfCols_cons_some_plain cfg (clean_html r) c cols v hg hcf]
        have hns : nsValue s cfg c v = v := by
          unfold nsValue; rw [if_neg (by simp [hcf])]
        rw [hns]
        show (strForId (some v)).data ++ descRender s (descOfCols cfg (clean_html r) cols)
          = (strForId (some v)).data ++ descRender s (descOfCols cfg (clean_html r) cols)
        rfl

theorem descRender_length (s : String) :
    ∀ ds : List (Bool × String),
    (descRender s ds).length = descBaseLen ds + descTrueCount ds * (s.length + 1) := by
  intro ds
  induction ds with
  | nil => simp [descRender, descBaseLen, descTrueCount]
  | cons d ds ih =>
    obtain ⟨b, w⟩ := d
    cases b
    · have hb : descBaseLen ((false, w) :: ds) = w.length + descBaseLen ds := by
        simp [descBaseLen]
      have hcnt : descTrueCount ((false, w) :: ds) = descTrueCount ds := by
        simp [descTrueCount, List.countP_cons]
      have hr : descRender s ((false, w) :: ds) = w.data ++ descRender s ds := rfl
      rw [hr, List.length_append, hcnt, hb, ih, show w.data.length = w.length from rfl]
      ring
    · have hb : descBaseLen ((true, w) :: ds) = w.length + descBaseLen ds := by
        simp [descBaseLen]
      have hcnt : descTrueCount ((true, w) :: ds) = descTrueCount ds + 1 := by
        simp [descTrueCount, List.countP_cons]
      have hr : descRender s ((true, w) :: ds)
          = s.data ++ '_' :: (w.data ++ descRender s ds) := rfl
      rw [hr, List.length_append, List.length_cons, List.length_append, hcnt, hb, ih,
        show w.data.length = w.length from rfl, show s.data.length = s.length from rfl]
      ring

theorem descRender_inj_of_len (s1 s2 : String) (hlen : s1.length = s2.length) :
    ∀ ds : List (Bool × String), 1 ≤ descTrueCount ds →
    descRender s1 ds = descRender s2 ds → s1 = s2 := by
  intro ds
  induction ds with
  | nil => intro hcnt; exact absurd hcnt (by simp [descTrueCount])
  | cons d ds ih =>
    obtain ⟨b, w⟩ := d
    cases b
    · intro hcnt heq
      have hcnt' : 1 ≤ descTrueCount ds := by
        simpa [descTrueCount, List.countP_cons] using hcnt
      have heq' : descRender s1 ds = descRender s2 ds := by
        simp only [descRender] at heq
        exact List.append_cancel_left heq
      exact ih hcnt' heq'
    · intro _ heq
      simp only [descRender] at heq
      have hdl : s1.data.length = s2.data.length := hlen
      exact String.ext (List.append_inj_left heq hdl)

theorem hashInput_tenant_ne (cfg : TableConfig) (s1 s2 : String) (r : Row)
    (hnd : (rowKeys r).Nodup) (hser : "server" ∉ gcKeyCols cfg) (hs : s1 ≠ s2)
    (hkey : ∃ c ∈ gcKeyCols cfg, ∃ v, pyGet (clean_html r) c = some v ∧
      (shouldNsCol cfg c && !isNoneOrEmptyStr v) = true) :
    hashInputOf s1 cfg r ≠ hashInputOf s2 cfg r := by
  intro heq
  have h1 : (hashInputOf s1 cfg r).data
      = descRender s1 (descOfCols cfg (clean_html r) (gcKeyCols cfg)) :=
    hashInput_cols s1 cfg r hnd (gcKeyCols cfg) hser
  have h2 : (hashInputOf s2 cfg r).data
      = descRender s2 (descOfCols cfg (clean_html r) (gcKeyCols cfg)) :=
    hashInput_cols s2 cfg r hnd (gcKeyCols cfg) hser
  have hdata : descRender s1 (descOfCols cfg (clean_html r) (gcKeyCols cfg))
      = descRender s2 (descOfCols cfg (clean_html r) (gcKeyCols cfg)) := by
    rw [← h1, ← h2, heq]
  have hcnt : 1 ≤ descTrueCount (descOfCols cfg (clean_html r) (gcKeyCols cfg)) := by
    obtain ⟨c, hc, v, hv, hcond⟩ := hkey
    have hmem : ((true : Bool), pyStr v) ∈ descOfCols cfg (clean_html r) (gcKeyCols cfg) := by
      unfold descOfCols
      apply List.mem_filterMap.mpr
      refine ⟨c, hc, ?_⟩
      simp only [hv]
      rw [if_pos hcond]
    unfold descTrueCount
    exact List.countP_pos_iff.mpr ⟨(true, pyStr v), hmem, rfl⟩
  have hl1 := descRender_length s1 (descOfCols cfg (clean_html r) (gcKeyCols cfg))
  have hl2 := descRender_length s2 (descOfCols cfg (clean_html r) (gcKeyCols cfg))
  rw [hdata, hl2] at hl1
  have h3 := Nat.add_left_cancel hl1
  have h4 := Nat.eq_of_mul_eq_mul_left hcnt h3
  have hlen : s1.length = s2.length := by omega
  exact hs (descRender_inj_of_len s1 s2 hlen (descOfCols cfg (clean_html r) (gcKeyCols cfg))
    hcnt hdata)

/-- Counterexample to claim C8 as stated: under a schema whose only primary
key is `name`, the record `{"name": ""}` has its key column present, but the
cleaned value is None and the namespacing step skips None/empty values, so
both tenants hash the empty concatenation and emit the same `id`. -/
theorem claim_C8_counterexample :
    transform "a"
      { columns := [], primary_keys := ["name"], secondary_keys := [], keys := [],
        list_columns := [], list_of_dicts_columns := [], no_ns_columns := [] }
      [[("name", Value.vStr "")]] =
      [[("server", Value.vStr "a"), ("id", Value.vStr (md5Hex "")), ("name", Value.vNull)]]
    ∧ transform "b"
      { columns := [], primary_keys := ["name"], secondary_keys := [], keys := [],
        list_columns := [], list_of_dicts_columns := [], no_ns_columns := [] }
      [[("name", Value.vStr "")]] =
      [[("server", Value.vStr "b"), ("id", Value.vStr (md5Hex "")), ("name", Value.vNull)]]
    ∧ ("a" : String) ≠ "b" :=
  ⟨rfl, rfl, by decide⟩

/-- Claim C8, amended. (i) Every row with at least one primary/secondary key
column present gets `id = md5(hashInputOf)`, the hex MD5 of the namespaced
key concatenation. (ii) Same tenant: two raw records that agree on every
primary/secondary key column (at least one present) receive the same `id`.
(iii) Different tenants: if at least one present key column actually receives
the tenant namespace (cleaned value not None/empty and not exempted), the
strings fed to MD5 differ — as literally stated the claim fails when no key
value is namespaced, e.g. a present-but-empty key value hashes identically
under every tenant. Stated for schemas not classifying `server` as a key
column and for records with distinct column names. -/
theorem claim_C8_amended :
    (∀ (cfg : TableConfig) (s : String) (r : Row),
      (rowKeys r).Nodup →
      "server" ∉ gcKeyCols cfg →
      (∃ c ∈ gcKeyCols cfg, (pyGet r c).isSome = true) →
      pyGet (finalizeRow s cfg r) "id" = some (Value.vStr (md5Hex (hashInputOf s cfg r))))
    ∧ (∀ (cfg : TableConfig) (s : String) (r1 r2 : Row),
      (rowKeys r1).Nodup → (rowKeys r2).Nodup →
      "server" ∉ gcKeyCols cfg →
      (∀ c ∈ gcKeyCols cfg, pyGet r1 c = pyGet r2 c) →
      (∃ c ∈ gcKeyCols cfg, (pyGet r1 c).isSome = true) →
      pyGet (finalizeRow s cfg r1) "id" = pyGet (finalizeRow s cfg r2) "id")
    ∧ (∀ (cfg : TableConfig) (s1 s2 : String) (r : Row),
      (rowKeys r).Nodup →
      "server" ∉ gcKeyCols cfg →
      s1 ≠ s2 →
      (∃ c ∈ gcKeyCols cfg, ∃ v, pyGet (clean_html r) c = some v ∧
        (shouldNsCol cfg c && !isNoneOrEmptyStr v) = true) →
      hashInputOf s1 cfg r ≠ hashInputOf s2 cfg r) := by
  refine ⟨?_, ?_, ?_⟩
  · intro cfg s r hnd hser hpres
    exact finalize_id_keyed_hash cfg s r hnd hser hpres
  · intro cfg s r1 r2 hnd1 hnd2 hser hagree hpres
    obtain ⟨c, hc, hcs⟩ := hpres
    rw [finalize_id_keyed_hash cfg s r1 hnd1 hser ⟨c, hc, hcs⟩,
      finalize_id_keyed_hash cfg s r2 hnd2 hser ⟨c, hc, by rw [← hagree c hc]; exact hcs⟩,
      hashInput_agree cfg s r1 r2 hnd1 hnd2 hser hagree]
  · intro cfg s1 s2 r hnd hser hs hkey
    exact hashInput_tenant_ne cfg s1 s2 r hnd hser hs hkey

/-- Witness for the amended claim C8 at concrete inputs: the keyed row gets
the hash id; two same-tenant records agreeing on the key column get equal
ids; two tenants namespacing the key value `123` get different hash inputs. -/
theorem claim_C8_witness :
    pyGet (finalizeRow "acme"
        { columns := [], primary_keys := ["name"], secondary_keys := [], keys := [],
          list_columns := [], list_of_dicts_columns := [], no_ns_columns := [] }
        [("name", Value.vStr "123")]) "id"
      = some (Value.vStr (md5Hex (hashInputOf "acme"
        { columns := [], primary_keys := ["name"], secondary_keys := [], keys := [],
          list_columns := [], list_of_dicts_columns := [], no_ns_columns := [] }
        [("name", Value.vStr "123")])))
    ∧ pyGet (finalizeRow "acme"
        { columns := [], primary_keys := ["name"], secondary_keys := [], keys := [],
          list_columns := [], list_of_dicts_columns := [], no_ns_columns := [] }
        [("name", Value.vStr "123"), ("a", Value.vInt 1)]) "id"
      = pyGet (finalizeRow "acme"
        { columns := [], primary_keys := ["name"], secondary_keys := [], keys := [],
          list_columns := [], list_of_dicts_columns := [], no_ns_columns := [] }
        [("name", Value.vStr "123"), ("b", Value.vInt 2)]) "id"
    ∧ hashInputOf "a"
        { columns := [], primary_keys := ["name"], secondary_keys := [], keys := [],
          list_columns := [], list_of_dicts_columns := [], no_ns_columns := [] }
        [("name", Value.vStr "123")]
      ≠ hashInputOf "b"
        { columns := [], primary_keys := ["name"], secondary_keys := [], keys := [],
          list_columns := [], list_of_dicts_columns := [], no_ns_columns := [] }
        [("name", Value.vStr "123")] := by
  refine ⟨?_, ?_, ?_⟩
  · exact claim_C8_amended.1 _ "acme" _ (by decide) (by decide) ⟨"name", by decide, rfl⟩
  · refine claim_C8_amended.2.1 _ "acme" _ _ (by decide) (by decide) (by decide)
      ?_ ⟨"name", by decide, rfl⟩
    intro c hc
    have hcn : c = "name" := List.mem_singleton.mp hc
    rw [hcn]
    rfl
  · exact claim_C8_amended.2.2 _ "a" "b" _ (by decide) (by decide) (by decide)
      ⟨"name", by decide, Value.vStr "123", rfl, by decide⟩
